import Mathlib

/-!
# Anomaly client: protocol decoder and dispatcher

A shallow embedding of `Source/Client/Client.cpp` and of the text-input part of
`Source/Renderer/Window.cpp`.

* A packet (`packet->data`) is a list of bytes; a pointer into it is an offset.
* Every read of a byte goes through `read8`, which fails with the offending
  offset when the offset is not inside the buffer (the C++ code has undefined
  behaviour there), so `Except.ok` results are runs without an out-of-bounds read.
* `uint32_t`, `uint16_t` and `uint8_t` values are natural numbers; a `float` is
  carried as its 32-bit IEEE-754 pattern, which is all the decoders do with it.
* The renderer and the audio subsystem are collaborators whose code is not part
  of the client: a call on them is recorded, in order, in `World.calls`. A
  pointer and length handed to a collaborator are recorded as the bytes of that
  range that lie inside the buffer, next to the length argument itself.
* `SDL_LogInfo` lines only write to the log and are left out.
-/

namespace Anomaly

/-- One octet of a packet. -/
abbrev Byte := Fin 256

/-- The octet holding the low eight bits of `n`. -/
def byte (n : Nat) : Byte := ⟨n % 256, Nat.mod_lt _ (by decide)⟩

/-! ## Wire codec -/

/-- Dereference of `data[off]`: the byte at `off`, or the offset itself as the
error when it lies outside the buffer. -/
def read8 (data : List Byte) (off : Nat) : Except Nat Nat :=
  match data[off]? with
  | some b => .ok b.val
  | none => .error off

/-- Modelled from the spec: `read16` is declared in `Anomaly.h`, which is absent;
the protocol fixes little-endian unsigned integers. -/
def read16 (data : List Byte) (off : Nat) : Except Nat Nat := do
  let b0 ← read8 data off
  let b1 ← read8 data (off + 1)
  pure (b0 + 256 * b1)

/-- Modelled from the spec: `read32` is declared in `Anomaly.h`, which is absent;
the protocol fixes little-endian unsigned integers. -/
def read32 (data : List Byte) (off : Nat) : Except Nat Nat := do
  let b0 ← read8 data off
  let b1 ← read8 data (off + 1)
  let b2 ← read8 data (off + 2)
  let b3 ← read8 data (off + 3)
  pure (b0 + 256 * b1 + 65536 * b2 + 16777216 * b3)

/-- Modelled from the spec: `read_float` is declared in `Anomaly.h`, which is
absent; a float travels as a little-endian IEEE-754 pattern, and the pattern is
what this model returns. -/
def read_float (data : List Byte) (off : Nat) : Except Nat Nat :=
  read32 data off

/-- Little-endian encoding of a 16-bit value, the producing side of `read16`. -/
def le16 (v : Nat) : List Byte := [byte v, byte (v / 256)]

/-- Little-endian encoding of a 32-bit value, the producing side of `read32`. -/
def le32 (v : Nat) : List Byte :=
  [byte v, byte (v / 256), byte (v / 65536), byte (v / 16777216)]

/-! ## Channels and enumerations (`Anomaly.h`) -/

/-- Modelled from the spec: channel ordinals of `Anomaly.h`, which is absent. -/
def INPUT_CHANNEL : Nat := 0
/-- Modelled from the spec: channel ordinals of `Anomaly.h`, which is absent. -/
def SPRITE_CHANNEL : Nat := 1
/-- Modelled from the spec: channel ordinals of `Anomaly.h`, which is absent. -/
def COMMAND_CHANNEL : Nat := 2
/-- Modelled from the spec: channel ordinals of `Anomaly.h`, which is absent. -/
def CONTENT_CHANNEL : Nat := 3
/-- Modelled from the spec: channel ordinals of `Anomaly.h`, which is absent. -/
def AUDIO_CHANNEL : Nat := 4

/-- Modelled from the spec: `Command::Type::START_TEXT_INPUT` of `Anomaly.h`. -/
def START_TEXT_INPUT : Nat := 0
/-- Modelled from the spec: `Command::Type::STOP_TEXT_INPUT` of `Anomaly.h`. -/
def STOP_TEXT_INPUT : Nat := 1

/-- Modelled from the spec: `ContentType::IMAGE` of `Anomaly.h`. -/
def IMAGE : Nat := 0
/-- Modelled from the spec: `ContentType::FONT` of `Anomaly.h`. -/
def FONT : Nat := 1
/-- Modelled from the spec: `ContentType::SOUND` of `Anomaly.h`. -/
def SOUND : Nat := 2

/-! ## Collaborators and state -/

/-- A call made by the client on one of its collaborators. -/
inductive Call where
  | clear (r g b : Nat)
  | draw_sprite (id x y scale : Nat)
  | draw_text (id x y scale r g b : Nat) (text : List Byte) (length : Nat)
  | present
  | load_image (id : Nat) (data : List Byte) (length : Nat)
  | load_font (id : Nat) (data : List Byte) (length : Nat)
  | load_sound (id : Nat) (data : List Byte) (length : Nat)
  | perform_command (id channel volume type : Nat)
  | start_text_input
  | stop_text_input
  | error (message : String)
  deriving DecidableEq, Repr

/-- The platform text-input service as `Window.cpp` uses it: whether text input
is active, and how often `SDL_StartTextInput` and `SDL_StopTextInput` ran. -/
structure Sdl where
  text_input_active : Bool
  start_text_input_calls : Nat
  stop_text_input_calls : Nat
  deriving DecidableEq, Repr

/-- `SDL_IsTextInputActive`. -/
def SDL_IsTextInputActive (s : Sdl) : Bool := s.text_input_active

/-- `SDL_StartTextInput` sets text input active. -/
def SDL_StartTextInput (s : Sdl) : Sdl :=
  { s with text_input_active := true,
           start_text_input_calls := s.start_text_input_calls + 1 }

/-- `SDL_StopTextInput` sets text input inactive. -/
def SDL_StopTextInput (s : Sdl) : Sdl :=
  { s with text_input_active := false,
           stop_text_input_calls := s.stop_text_input_calls + 1 }

/-- The fields of `Window::input` that `Window.cpp` touches on key and text
events: the composed text, its changed flag and the key events `(sym, down)`. -/
structure Input where
  composition : List Byte
  changed_composition : Bool
  key_events : List (Nat × Bool)
  deriving DecidableEq, Repr

/-- The window: its input record and the platform service behind it. -/
structure Window where
  input : Input
  sdl : Sdl
  deriving DecidableEq, Repr

/-- A packet handed to `enet_peer_send`. -/
structure Sent where
  peer : Option Nat
  channel : Nat
  payload : List Byte
  deriving DecidableEq, Repr

/-- Everything the client acts on: the calls issued so far on the renderer,
audio and window collaborators, the window, the peer handle of the session
(`none` is `nullptr`), the packets sent and the number of packets released. -/
structure World where
  calls : List Call
  window : Window
  peer : Option Nat
  sent : List Sent
  released : Nat
  deriving DecidableEq, Repr

/-- Record one collaborator call. -/
def World.call (w : World) (c : Call) : World :=
  { w with calls := w.calls ++ [c] }

/-! ## `Client::draw` -/

/-- The `for` loop of `Client::draw`: `n` iterations are left and `off` is the
cursor `data`. Returns the cursor after the loop and the world. -/
def draw_loop (data : List Byte) : Nat → Nat → World → Except Nat (Nat × World)
  | 0, off, w => .ok (off, w)
  | n + 1, off, w => do
    let id ← read32 data off
    let x ← read_float data (off + 4)
    let y ← read_float data (off + 8)
    let scale ← read_float data (off + 12)
    if id &&& 0x80000000 ≠ 0 then
      let r ← read8 data (off + 16)
      let g ← read8 data (off + 17)
      let b ← read8 data (off + 18)
      let length ← read32 data (off + 19)
      draw_loop data n (off + 23 + length)
        (w.call (.draw_text (id &&& 0x7FFFFFFF) x y scale r g b
          ((data.drop (off + 23)).take length) length))
    else
      draw_loop data n (off + 16) (w.call (.draw_sprite id x y scale))

/-- `Client::draw`. -/
def draw (w : World) (data : List Byte) : Except Nat World := do
  let w := w.call (.clear 0 0 0)
  let length ← read32 data 0
  let (_, w) ← draw_loop data length 4 w
  pure (w.call .present)

/-! ## `Window::start_text_input`, `Window::stop_text_input` -/

/-- `Window::start_text_input`. -/
def Window.start_text_input (win : Window) : Window :=
  if !SDL_IsTextInputActive win.sdl then
    { win with sdl := SDL_StartTextInput win.sdl }
  else
    win

/-- `Window::stop_text_input`. -/
def Window.stop_text_input (win : Window) : Window :=
  { input := { win.input with composition := [], changed_composition := true },
    sdl := SDL_StopTextInput win.sdl }

/-! ## `Client::handle_commands` -/

/-- The `for` loop of `Client::handle_commands`: `n` iterations are left and `i`
is the loop index; `data` of the source is the packet from offset 4. -/
def handle_commands_loop (data : List Byte) : Nat → Nat → World → Except Nat World
  | 0, _, w => .ok w
  | n + 1, i, w => do
    let type ← read8 data (4 + i)
    if type = START_TEXT_INPUT then
      handle_commands_loop data n (i + 1)
        { w.call .start_text_input with window := w.window.start_text_input }
    else if type = STOP_TEXT_INPUT then
      handle_commands_loop data n (i + 1)
        { w.call .stop_text_input with window := w.window.stop_text_input }
    else
      handle_commands_loop data n (i + 1) w

/-- `Client::handle_commands`. -/
def handle_commands (w : World) (data : List Byte) : Except Nat World := do
  let size ← read32 data 0
  handle_commands_loop data size 0 w

/-! ## `Client::handle_audio` -/

/-- The `for` loop of `Client::handle_audio`: `n` iterations are left and `off`
is the cursor `data`. -/
def handle_audio_loop (data : List Byte) : Nat → Nat → World → Except Nat World
  | 0, _, w => .ok w
  | n + 1, off, w => do
    let id ← read32 data off
    let channel ← read16 data (off + 4)
    let volume ← read8 data (off + 6)
    let type ← read8 data (off + 7)
    handle_audio_loop data n (off + 8) (w.call (.perform_command id channel volume type))

/-- `Client::handle_audio`. -/
def handle_audio (w : World) (data : List Byte) : Except Nat World := do
  let size ← read32 data 0
  handle_audio_loop data size 4 w

/-! ## `Client::update_content` -/

/-- `Client::update_content`. -/
def update_content (w : World) (data : List Byte) : Except Nat World := do
  let id ← read32 data 1
  let length ← read32 data 5
  let type ← read8 data 0
  if type = IMAGE then
    pure (w.call (.load_image id ((data.drop 9).take length) length))
  else if type = FONT then
    pure (w.call (.load_font id ((data.drop 9).take length) length))
  else if type = SOUND then
    pure (w.call (.load_sound id ((data.drop 9).take length) length))
  else
    pure w

/-! ## `Client::update` -/

/-- `ENetEventType`. -/
inductive ENetEventType where
  | NONE
  | CONNECT
  | DISCONNECT
  | RECEIVE
  | DISCONNECT_TIMEOUT
  deriving DecidableEq, Repr

/-- The fields of `ENetEvent` the client looks at. -/
structure ENetEvent where
  type : ENetEventType
  channelID : Nat
  packet : List Byte
  deriving DecidableEq, Repr

/-- The four decoders `Client::update` can hand a packet to. -/
inductive Decoder where
  | draw
  | handle_commands
  | update_content
  | handle_audio
  deriving DecidableEq, Repr

/-- Running a decoder on a packet. -/
def Decoder.run : Decoder → World → List Byte → Except Nat World
  | .draw => Anomaly.draw
  | .handle_commands => Anomaly.handle_commands
  | .update_content => Anomaly.update_content
  | .handle_audio => Anomaly.handle_audio

/-- The `if`/`else if` chain on `event.channelID` in the `RECEIVE` case of
`Client::update`: the decoder the packet is handed to, if any. -/
def route (channelID : Nat) : Option Decoder :=
  if channelID = SPRITE_CHANNEL then some .draw
  else if channelID = COMMAND_CHANNEL then some .handle_commands
  else if channelID = CONTENT_CHANNEL then some .update_content
  else if channelID = AUDIO_CHANNEL then some .handle_audio
  else none

/-- The `RECEIVE` case of `Client::update`: decode, then `enet_packet_destroy`. -/
def receive (w : World) (event : ENetEvent) : Except Nat World := do
  let w ← match route event.channelID with
    | some d => d.run w event.packet
    | none => pure w
  pure { w with released := w.released + 1 }

/-- The `while` loop of `Client::update` over the events `enet_host_service`
returns before it reports an empty queue. The result is the return value of
`update` and the world. -/
def service_loop : List ENetEvent → World → Except Nat (Bool × World)
  | [], w => .ok (true, w)
  | event :: queue, w =>
    match event.type with
    | .DISCONNECT_TIMEOUT => .ok (false, w)
    | .DISCONNECT => .ok (false, w)
    | .RECEIVE => do
      let w ← receive w event
      service_loop queue w
    | _ => service_loop queue w

/-- `Client::update`. `create_input_packet` stands for `Input::create_input_packet`,
whose code is in another file: it yields the packet to send, if any, and the
input record it leaves behind. -/
def update (create_input_packet : Input → Option (List Byte) × Input)
    (queue : List ENetEvent) (w : World) : Except Nat (Bool × World) :=
  let (input_packet, input) := create_input_packet w.window.input
  let w := { w with window := { w.window with input := input } }
  let w := match input_packet with
    | some p => { w with sent := w.sent ++ [⟨w.peer, INPUT_CHANNEL, p⟩] }
    | none => w
  service_loop queue w

/-! ## `Client::connect` -/

/-- What the transport answers during one `Client::connect`: the return value of
`enet_address_set_host`, the peer `enet_host_connect` returns, and the return
value and event of `enet_host_service`. -/
structure ConnectEnv where
  set_host : Int
  host_connect : Option Nat
  service : Int
  event : ENetEvent
  deriving DecidableEq, Repr

/-- The single quote character used in the error messages. -/
def quote : String := String.singleton (Char.ofNat 39)

/-- The `login_packet` array; `mobile` is `ANOMALY_MOBILE`. -/
def login_packet (mobile : Bool) : List Byte :=
  [if mobile then 1 else 0]

/-- `Client::connect`. -/
def connect (mobile : Bool) (env : ConnectEnv) (w : World) (hostname : String)
    (port : Nat) : Bool × World :=
  if env.set_host < 0 then
    (false, w.call (.error ("Could not resolve hostname " ++ quote ++ hostname ++ quote)))
  else
    let w := { w with peer := env.host_connect }
    if env.service > 0 ∧ env.event.type = .CONNECT then
      (true, { w with sent := w.sent ++ [⟨w.peer, INPUT_CHANNEL, login_packet mobile⟩] })
    else
      (false, w.call (.error ("Could not connect to " ++ quote ++ hostname ++ ":["
        ++ toString port ++ "]" ++ quote)))

/-! ## The producing side of the wire format -/

/-- A record of a scene message as it is on the wire: a sprite record, or a text
record with its colour and text bytes. `id` is the full 32-bit id field. -/
inductive DrawRecord where
  | sprite (id x y scale : Nat)
  | text (id x y scale r g b : Nat) (text : List Byte)
  deriving DecidableEq, Repr

/-- Well-formed record: every field fits its width, and bit 31 of the id is set
exactly on text records. -/
def DrawRecord.wf : DrawRecord → Prop
  | .sprite id x y scale =>
    id < 2 ^ 32 ∧ id &&& 0x80000000 = 0 ∧ x < 2 ^ 32 ∧ y < 2 ^ 32 ∧ scale < 2 ^ 32
  | .text id x y scale r g b bytes =>
    id < 2 ^ 32 ∧ id &&& 0x80000000 ≠ 0 ∧ x < 2 ^ 32 ∧ y < 2 ^ 32 ∧ scale < 2 ^ 32 ∧
      r < 256 ∧ g < 256 ∧ b < 256 ∧ bytes.length < 2 ^ 32

/-- Bytes of one record: 16 bytes for a sprite, 16 + 3 + 4 + text length for a
text. -/
def DrawRecord.encode : DrawRecord → List Byte
  | .sprite id x y scale => le32 id ++ le32 x ++ le32 y ++ le32 scale
  | .text id x y scale r g b bytes =>
    le32 id ++ le32 x ++ le32 y ++ le32 scale ++ [byte r, byte g, byte b]
      ++ le32 bytes.length ++ bytes

/-- Bytes of a list of records, one after the other. -/
def encodeRecords : List DrawRecord → List Byte
  | [] => []
  | r :: rs => r.encode ++ encodeRecords rs

/-- A scene message: the count, then the records. -/
def encodeScene (rs : List DrawRecord) : List Byte :=
  le32 rs.length ++ encodeRecords rs

/-- The draw call the spec gives for a record: a sprite draw with the literal id,
or a text draw with bit 31 of the id cleared. -/
def DrawRecord.call : DrawRecord → Call
  | .sprite id x y scale => .draw_sprite id x y scale
  | .text id x y scale r g b bytes =>
    .draw_text (id &&& 0x7FFFFFFF) x y scale r g b bytes bytes.length

/-- A sprite record `(id, x, y, scale)`. -/
structure Sprite where
  id : Nat
  x : Nat
  y : Nat
  scale : Nat
  deriving DecidableEq, Repr

/-- A sprite whose id has bit 31 clear and whose fields fit 32 bits. -/
def Sprite.wf (s : Sprite) : Prop :=
  s.id < 2 ^ 32 ∧ s.id &&& 0x80000000 = 0 ∧ s.x < 2 ^ 32 ∧ s.y < 2 ^ 32 ∧ s.scale < 2 ^ 32

/-- The wire record of a sprite. -/
def Sprite.toRecord (s : Sprite) : DrawRecord :=
  .sprite s.id s.x s.y s.scale

/-- An audio record `(id, channel, volume, type)`. -/
structure AudioRecord where
  id : Nat
  channel : Nat
  volume : Nat
  type : Nat
  deriving DecidableEq, Repr

/-- Every field of the audio record fits its width. -/
def AudioRecord.wf (a : AudioRecord) : Prop :=
  a.id < 2 ^ 32 ∧ a.channel < 2 ^ 16 ∧ a.volume < 256 ∧ a.type < 256

/-- The 8 bytes of an audio record. -/
def AudioRecord.encode (a : AudioRecord) : List Byte :=
  le32 a.id ++ le16 a.channel ++ [byte a.volume, byte a.type]

/-- Bytes of a list of audio records, one after the other. -/
def encodeAudioRecords : List AudioRecord → List Byte
  | [] => []
  | a :: recs => a.encode ++ encodeAudioRecords recs

/-- An audio message: the count, then the records. -/
def encodeAudio (recs : List AudioRecord) : List Byte :=
  le32 recs.length ++ encodeAudioRecords recs

/-- A content message: type byte, id, length, payload. -/
def encodeContent (type id : Nat) (payload : List Byte) : List Byte :=
  [byte type] ++ le32 id ++ le32 payload.length ++ payload

instance : DecidablePred DrawRecord.wf := fun r => by
  cases r <;> unfold DrawRecord.wf <;> infer_instance

instance : DecidablePred Sprite.wf := fun s => by
  unfold Sprite.wf; infer_instance

instance : DecidablePred AudioRecord.wf := fun a => by
  unfold AudioRecord.wf; infer_instance

/-- A world in which nothing has happened yet. -/
def World.initial : World :=
  { calls := [], window := ⟨⟨[], false, []⟩, ⟨false, 0, 0⟩⟩, peer := none, sent := [],
    released := 0 }

/-- The 20-byte scene message of the concrete scenario. -/
def scenario_scene : List Byte :=
  [0x01, 0x00, 0x00, 0x00, 0x05, 0x00, 0x00, 0x00, 0x00, 0x00, 0x00, 0x00,
   0x00, 0x00, 0x80, 0x3F, 0x00, 0x00, 0x00, 0x00]

/-- The 12-byte content message of the concrete scenario. -/
def scenario_content : List Byte :=
  [0x00, 0x07, 0x00, 0x00, 0x00, 0x03, 0x00, 0x00, 0x00, 0xAA, 0xBB, 0xCC]

/-- The world after `enet_packet_destroy` of one more packet. -/
def World.release (w : World) : World :=
  { w with released := w.released + 1 }

/-- A transport answer in which name resolution succeeds, a peer handle is
returned and no event arrives within the timeout. -/
def timeout_env : ConnectEnv :=
  { set_host := 0, host_connect := some 1, service := 0, event := ⟨.NONE, 0, []⟩ }

/-- A disconnect-type event: `DISCONNECT` or `DISCONNECT_TIMEOUT`. -/
def ENetEvent.isDisconnect (e : ENetEvent) : Prop :=
  e.type = .DISCONNECT ∨ e.type = .DISCONNECT_TIMEOUT

instance : DecidablePred ENetEvent.isDisconnect := fun e => by
  unfold ENetEvent.isDisconnect; infer_instance

/-- The packet of the event decodes without an out-of-bounds read, whatever the
world is. -/
def ENetEvent.decodes (e : ENetEvent) : Prop :=
  ∀ v : World, ∃ v', receive v e = .ok v'

/-- An input collaborator with nothing to send. -/
def no_input_packet (input : Input) : Option (List Byte) × Input :=
  (none, input)

/-- A receive event carrying the scenario scene message on the SPRITE channel. -/
def scene_event : ENetEvent := ⟨.RECEIVE, SPRITE_CHANNEL, scenario_scene⟩

/-- A receive event carrying the scenario content message on the CONTENT channel. -/
def content_event : ENetEvent := ⟨.RECEIVE, CONTENT_CHANNEL, scenario_content⟩

/-- A disconnect event. -/
def disconnect_event : ENetEvent := ⟨.DISCONNECT, 0, []⟩

/-- A connect event; its packet field is empty and the loop never reads it. -/
def connect_event : ENetEvent := ⟨.CONNECT, SPRITE_CHANNEL, []⟩

/-- The call `Client::handle_commands` makes on the window for one command
byte, if any. -/
def command_call (b : Byte) : Option Call :=
  if b.val = START_TEXT_INPUT then some .start_text_input
  else if b.val = STOP_TEXT_INPUT then some .stop_text_input
  else none

/-- The window after the window call made for one command byte. -/
def command_window (win : Window) (b : Byte) : Window :=
  if b.val = START_TEXT_INPUT then win.start_text_input
  else if b.val = STOP_TEXT_INPUT then win.stop_text_input
  else win

/-! ## `Window::update` -/

/-- The key code `SDLK_BACKSPACE` of SDL, the character code 8. -/
def SDLK_BACKSPACE : Nat := 8

/-- The events of `Window::update` as far as the modelled fields go: quit, key
down and key up with the key code, text input with its bytes; the window, mouse,
finger and wheel events touch none of the fields modelled here. -/
inductive SDL_Event where
  | QUIT
  | KEYDOWN (sym : Nat)
  | KEYUP (sym : Nat)
  | TEXTINPUT (text : List Byte)
  | OTHER
  deriving DecidableEq, Repr

/-- The `while` loop of the backspace branch, run on the reversed composition:
the head of the reversed list is `back()`, its tail is the string after
`pop_back()`, and the loop goes on while the string is not empty and
`(back() & 0xC0) == 0x80`. -/
def pop_continuation : List Byte → List Byte
  | [] => []
  | b :: bs => if b.val &&& 0xC0 = 0x80 then pop_continuation bs else b :: bs

/-- The backspace branch of the `SDL_KEYDOWN` case: the loop, then one more
`pop_back` with the changed flag set when the string is not empty. -/
def Input.backspace (input : Input) : Input :=
  match pop_continuation input.composition.reverse with
  | [] => { input with composition := [] }
  | _ :: bs => { input with composition := bs.reverse, changed_composition := true }

/-- `Window::update` over the events `SDL_PollEvent` returns before it reports
an empty queue. The result is the return value and the window. -/
def Window.update : List SDL_Event → Window → Bool × Window
  | [], win => (true, win)
  | event :: queue, win =>
    match event with
    | .QUIT => (false, win)
    | .KEYDOWN sym =>
      let input := if sym = SDLK_BACKSPACE then win.input.backspace else win.input
      Window.update queue
        { win with input := { input with key_events := input.key_events ++ [(sym, true)] } }
    | .KEYUP sym =>
      Window.update queue
        { win with input :=
            { win.input with key_events := win.input.key_events ++ [(sym, false)] } }
    | .TEXTINPUT text =>
      Window.update queue
        { win with input :=
            { win.input with composition := win.input.composition ++ text,
                             changed_composition := true } }
    | .OTHER => Window.update queue win

/-- A continuation byte `10xxxxxx`. -/
def is_continuation (b : Byte) : Prop := b.val &&& 0xC0 = 0x80

instance : DecidablePred is_continuation := fun b => by
  unfold is_continuation; infer_instance

/-- The bytes of one encoded code point by their UTF-8 pattern: a lead byte in
00..7F, C2..DF, E0..EF or F0..F4 followed by 0, 1, 2 or 3 continuation bytes.
(The further limits UTF-8 puts on the second byte after E0, ED, F0 and F4 are
not asked for.) -/
def utf8_code_point : List Byte → Prop
  | [b0] => b0.val < 0x80
  | [b0, b1] => 0xC2 ≤ b0.val ∧ b0.val ≤ 0xDF ∧ is_continuation b1
  | [b0, b1, b2] => 0xE0 ≤ b0.val ∧ b0.val ≤ 0xEF ∧ is_continuation b1 ∧ is_continuation b2
  | [b0, b1, b2, b3] =>
    0xF0 ≤ b0.val ∧ b0.val ≤ 0xF4 ∧ is_continuation b1 ∧ is_continuation b2 ∧
      is_continuation b3
  | _ => False

instance : DecidablePred utf8_code_point := fun s => by
  unfold utf8_code_point; split <;> infer_instance

/-- The bytes of a list of encoded code points, one after the other. -/
def utf8_bytes : List (List Byte) → List Byte
  | [] => []
  | c :: cs => c ++ utf8_bytes cs

/-- Well-formed UTF-8: the bytes of a list of encoded code points. -/
def well_formed_utf8 (s : List Byte) : Prop :=
  ∃ cps : List (List Byte), (∀ c ∈ cps, utf8_code_point c) ∧ s = utf8_bytes cps

/-- The calls the decoder of a received message makes when it runs on its own,
from a world in which nothing has happened yet; no calls when no decoder takes
the channel of the message. -/
def own_calls (e : ENetEvent) : List Call :=
  match route e.channelID with
  | some d =>
    match d.run World.initial e.packet with
    | .ok r => r.calls
    | .error _ => []
  | none => []

/-- Two runs of a decoder from the worlds `w` and `v`, ending in `w'` and `v'`,
have appended the same calls and released no packet. -/
def same_calls (w w' v v' : World) : Prop :=
  ∃ cs, w'.calls = w.calls ++ cs ∧ v'.calls = v.calls ++ cs ∧ w'.released = w.released

/-! # Theorems -/

/-! ## Codec lemmas -/

theorem byte_val (n : Nat) : (byte n).val = n % 256 := rfl

theorem le32_length (v : Nat) : (le32 v).length = 4 := rfl

theorem drop_add_of_drop {d p r : List Byte} {o : Nat} (k : Nat)
    (h : d.drop o = p ++ r) (hk : p.length = k) :
    d.drop (o + k) = r := by
  rw [← List.drop_drop, h, ← hk, List.drop_left]

theorem read8_of_drop {d r : List Byte} {o : Nat} {b : Byte}
    (h : d.drop o = b :: r) : read8 d o = .ok b.val := by
  have hb : d[o]? = some b := by
    have hd := List.getElem?_drop d o 0
    rw [h] at hd
    simpa using hd.symm
  simp [read8, hb]

theorem read8_byte_of_drop {d r : List Byte} {o v : Nat} (hv : v < 256)
    (h : d.drop o = byte v :: r) : read8 d o = .ok v := by
  rw [read8_of_drop h, byte_val, Nat.mod_eq_of_lt hv]

theorem read16_of_drop {d r : List Byte} {o v : Nat} (hv : v < 2 ^ 16)
    (h : d.drop o = le16 v ++ r) : read16 d o = .ok v := by
  have h0 := read8_of_drop (b := byte v) (r := byte (v / 256) :: r)
    (by simpa [le16] using h)
  have h1 := read8_of_drop (b := byte (v / 256)) (r := r)
    (drop_add_of_drop (p := [byte v]) 1 (by simpa [le16] using h) rfl)
  simp only [read16, h0, h1, byte_val, bind, Except.bind, pure, Except.pure]
  congr 1
  omega

theorem read32_of_drop {d r : List Byte} {o v : Nat} (hv : v < 2 ^ 32)
    (h : d.drop o = le32 v ++ r) : read32 d o = .ok v := by
  have h0 := read8_of_drop (b := byte v)
    (r := byte (v / 256) :: byte (v / 65536) :: byte (v / 16777216) :: r)
    (by simpa [le32] using h)
  have h1 := read8_of_drop (b := byte (v / 256))
    (r := byte (v / 65536) :: byte (v / 16777216) :: r)
    (drop_add_of_drop (p := [byte v]) 1 (by simpa [le32] using h) rfl)
  have h2 := read8_of_drop (b := byte (v / 65536)) (r := byte (v / 16777216) :: r)
    (drop_add_of_drop (p := [byte v, byte (v / 256)]) 2 (by simpa [le32] using h) rfl)
  have h3 := read8_of_drop (b := byte (v / 16777216)) (r := r)
    (drop_add_of_drop (p := [byte v, byte (v / 256), byte (v / 65536)]) 3
      (by simpa [le32] using h) rfl)
  simp only [read32, h0, h1, h2, h3, byte_val, bind, Except.bind, pure, Except.pure]
  congr 1
  omega

/-! ## The loop of `Client::draw` on encoded records -/

/-- On a buffer that holds the encoding of well-formed records at the cursor, the
loop of `Client::draw` runs without an out-of-bounds read, issues the draw call
of each record in order and leaves the cursor right behind the records. -/
theorem draw_loop_encodeRecords (data : List Byte) (rs : List DrawRecord) :
    ∀ (tail : List Byte) (off : Nat) (w : World), (∀ r ∈ rs, r.wf) →
      data.drop off = encodeRecords rs ++ tail →
      draw_loop data rs.length off w
        = .ok (off + (encodeRecords rs).length,
            { w with calls := w.calls ++ rs.map DrawRecord.call }) := by
  induction rs with
  | nil => intro tail off w _ _; simp [draw_loop, encodeRecords]
  | cons r rs ih =>
    intro tail off w hwf h
    have hr : r.wf := hwf r (List.mem_cons_self _ _)
    have hrs : ∀ r' ∈ rs, r'.wf := fun r' hr' => hwf r' (List.mem_cons_of_mem _ hr')
    cases r with
    | sprite id x y scale =>
      obtain ⟨hid, hflag, hx, hy, hs⟩ := hr
      have e0 : data.drop off
          = le32 id ++ (le32 x ++ (le32 y ++ (le32 scale ++ (encodeRecords rs ++ tail)))) := by
        simpa [encodeRecords, DrawRecord.encode, List.append_assoc] using h
      have e4 := drop_add_of_drop 4 e0 rfl
      have e8 : data.drop (off + 8) = _ := drop_add_of_drop (o := off + 4) 4 e4 rfl
      have e12 : data.drop (off + 12) = _ := drop_add_of_drop (o := off + 8) 4 e8 rfl
      have e16 : data.drop (off + 16) = _ := drop_add_of_drop (o := off + 12) 4 e12 rfl
      have r0 := read32_of_drop hid e0
      have r4 := read32_of_drop hx e4
      have r8 := read32_of_drop hy e8
      have r12 := read32_of_drop hs e12
      have step := ih tail (off + 16) (w.call (.draw_sprite id x y scale)) hrs e16
      simp only [List.length_cons, draw_loop, read_float, r0, r4, r8, r12, bind, Except.bind,
        hflag, ne_eq, not_true_eq_false, if_false, step]
      simp [encodeRecords, DrawRecord.encode, le32_length, World.call, DrawRecord.call]
      omega
    | text id x y scale r g b bytes =>
      obtain ⟨hid, hflag, hx, hy, hs, hr, hg, hb, hlen⟩ := hr
      have e0 : data.drop off
          = le32 id ++ (le32 x ++ (le32 y ++ (le32 scale ++ (byte r :: byte g :: byte b ::
              (le32 bytes.length ++ (bytes ++ (encodeRecords rs ++ tail))))))) := by
        simpa [encodeRecords, DrawRecord.encode, List.append_assoc] using h
      have e4 := drop_add_of_drop 4 e0 rfl
      have e8 : data.drop (off + 8) = _ := drop_add_of_drop (o := off + 4) 4 e4 rfl
      have e12 : data.drop (off + 12) = _ := drop_add_of_drop (o := off + 8) 4 e8 rfl
      have e16 : data.drop (off + 16) = _ := drop_add_of_drop (o := off + 12) 4 e12 rfl
      have e17 : data.drop (off + 17) = byte g :: byte b ::
          (le32 bytes.length ++ (bytes ++ (encodeRecords rs ++ tail))) :=
        drop_add_of_drop (o := off + 16) (p := [byte r]) 1 e16 rfl
      have e18 : data.drop (off + 18) = byte b ::
          (le32 bytes.length ++ (bytes ++ (encodeRecords rs ++ tail))) :=
        drop_add_of_drop (o := off + 17) (p := [byte g]) 1 e17 rfl
      have e19 : data.drop (off + 19)
          = le32 bytes.length ++ (bytes ++ (encodeRecords rs ++ tail)) :=
        drop_add_of_drop (o := off + 18) (p := [byte b]) 1 e18 rfl
      have e23 : data.drop (off + 23) = _ := drop_add_of_drop (o := off + 19) 4 e19 rfl
      have eN : data.drop (off + 23 + bytes.length) = _ :=
        drop_add_of_drop (o := off + 23) bytes.length e23 rfl
      have r0 := read32_of_drop hid e0
      have r4 := read32_of_drop hx e4
      have r8 := read32_of_drop hy e8
      have r12 := read32_of_drop hs e12
      have r16 := read8_byte_of_drop hr e16
      have r17 := read8_byte_of_drop hg e17
      have r18 := read8_byte_of_drop hb e18
      have r19 := read32_of_drop hlen e19
      have htake : (data.drop (off + 23)).take bytes.length = bytes := by
        rw [e23, List.take_left]
      have step := ih tail (off + 23 + bytes.length)
        (w.call (.draw_text (id &&& 0x7FFFFFFF) x y scale r g b bytes bytes.length)) hrs eN
      simp only [List.length_cons, draw_loop, read_float, r0, r4, r8, r12, r16, r17, r18, r19,
        bind, Except.bind, hflag, ne_eq, not_false_eq_true, if_true, htake, step]
      simp [encodeRecords, DrawRecord.encode, le32_length, World.call, DrawRecord.call]
      omega

/-- On the scene message of well-formed records `Client::draw` clears, issues the
draw call of each record in order, and presents. -/
theorem draw_encodeScene (w : World) (rs : List DrawRecord) (hn : rs.length < 2 ^ 32)
    (hwf : ∀ r ∈ rs, r.wf) :
    draw w (encodeScene rs)
      = .ok { w with calls := w.calls ++ [Call.clear 0 0 0] ++ rs.map DrawRecord.call
                ++ [Call.present] } := by
  have hcount : read32 (encodeScene rs) 0 = .ok rs.length :=
    read32_of_drop (r := encodeRecords rs) hn (by simp [encodeScene])
  have hdrop : (encodeScene rs).drop 4 = encodeRecords rs ++ [] := by
    simp [encodeScene, le32]
  have hloop := draw_loop_encodeRecords (encodeScene rs) rs [] 4 (w.call (.clear 0 0 0))
    hwf hdrop
  simp only [draw, hcount, hloop, bind, Except.bind, pure, Except.pure]
  simp [World.call]

theorem encodeRecords_sprites_length (ss : List Sprite) :
    (encodeRecords (ss.map Sprite.toRecord)).length = 16 * ss.length := by
  induction ss with
  | nil => rfl
  | cons s ss ih =>
    simp only [List.map_cons, encodeRecords, List.length_append, ih, List.length_cons]
    simp [Sprite.toRecord, DrawRecord.encode, le32_length]
    omega

theorem Sprite.toRecord_wf {s : Sprite} (h : s.wf) : s.toRecord.wf := h

/-- C1: a scene message made of the little-endian count `N` and `N` 16-byte sprite
records (ids with bit 31 clear) makes `Client::draw` issue exactly one clear,
then the `N` sprite draws with the original `(id, x, y, scale)` in the original
order, then exactly one present. -/
theorem draw_sprites_roundtrip (w : World) (ss : List Sprite) (hn : ss.length < 2 ^ 32)
    (hwf : ∀ s ∈ ss, s.wf) :
    (encodeScene (ss.map Sprite.toRecord)).length = 4 + 16 * ss.length ∧
    draw w (encodeScene (ss.map Sprite.toRecord))
      = .ok { w with calls := w.calls ++ [Call.clear 0 0 0]
                ++ ss.map (fun s => Call.draw_sprite s.id s.x s.y s.scale)
                ++ [Call.present] } := by
  constructor
  · simp [encodeScene, le32_length, encodeRecords_sprites_length]
  · have h := draw_encodeScene w (ss.map Sprite.toRecord) (by simpa using hn)
      (by
        intro r hr
        obtain ⟨s, hs, rfl⟩ := List.mem_map.mp hr
        exact Sprite.toRecord_wf (hwf s hs))
    rw [h]
    simp [List.map_map, Function.comp_def, Sprite.toRecord, DrawRecord.call]

/-- Witness of C1 on two sprites. -/
theorem draw_sprites_roundtrip_witness :
    draw World.initial (encodeScene ([⟨5, 1, 2, 3⟩, ⟨7, 0, 0x3F800000, 9⟩].map Sprite.toRecord))
      = .ok { World.initial with calls := [Call.clear 0 0 0, Call.draw_sprite 5 1 2 3,
                Call.draw_sprite 7 0 0x3F800000 9, Call.present] } :=
  (draw_sprites_roundtrip World.initial [⟨5, 1, 2, 3⟩, ⟨7, 0, 0x3F800000, 9⟩] (by decide)
    (by decide)).2

/-- C2: in a scene message of well-formed records, a record whose 32-bit id has
bit 31 clear makes `Client::draw` issue a sprite draw with the literal id at the
place of that record, and a record whose id has bit 31 set makes it issue a text
draw with font id `id & 0x7FFFFFFF` there; the call trace holds exactly one call
per record, so the other kind of call is not issued for it. -/
theorem draw_text_flag_discrimination (w : World) (pre post : List DrawRecord)
    (hn : pre.length + 1 + post.length < 2 ^ 32)
    (hpre : ∀ q ∈ pre, q.wf) (hpost : ∀ q ∈ post, q.wf) :
    (∀ id x y scale : Nat, id < 2 ^ 32 → id &&& 0x80000000 = 0 →
        x < 2 ^ 32 → y < 2 ^ 32 → scale < 2 ^ 32 →
        draw w (encodeScene (pre ++ DrawRecord.sprite id x y scale :: post))
          = .ok { w with calls := w.calls ++ [Call.clear 0 0 0] ++ pre.map DrawRecord.call
                    ++ [Call.draw_sprite id x y scale] ++ post.map DrawRecord.call
                    ++ [Call.present] }) ∧
    (∀ (id x y scale r g b : Nat) (bytes : List Byte), id < 2 ^ 32 →
        id &&& 0x80000000 ≠ 0 → x < 2 ^ 32 → y < 2 ^ 32 → scale < 2 ^ 32 →
        r < 256 → g < 256 → b < 256 → bytes.length < 2 ^ 32 →
        draw w (encodeScene (pre ++ DrawRecord.text id x y scale r g b bytes :: post))
          = .ok { w with calls := w.calls ++ [Call.clear 0 0 0] ++ pre.map DrawRecord.call
                    ++ [Call.draw_text (id &&& 0x7FFFFFFF) x y scale r g b bytes bytes.length]
                    ++ post.map DrawRecord.call ++ [Call.present] }) := by
  have key : ∀ r : DrawRecord, r.wf →
      draw w (encodeScene (pre ++ r :: post))
        = .ok { w with calls := w.calls ++ [Call.clear 0 0 0] ++ pre.map DrawRecord.call
                  ++ [r.call] ++ post.map DrawRecord.call ++ [Call.present] } := by
    intro r hr
    have h := draw_encodeScene w (pre ++ r :: post)
      (by simp only [List.length_append, List.length_cons]; omega)
      (by
        intro q hq
        rcases List.mem_append.mp hq with hq | hq
        · exact hpre q hq
        · rcases List.mem_cons.mp hq with rfl | hq
          · exact hr
          · exact hpost q hq)
    rw [h]
    simp [List.append_assoc]
  constructor
  · intro id x y scale hid hflag hx hy hs
    exact key (.sprite id x y scale) ⟨hid, hflag, hx, hy, hs⟩
  · intro id x y scale r g b bytes hid hflag hx hy hs hr hg hb hlen
    exact key (.text id x y scale r g b bytes) ⟨hid, hflag, hx, hy, hs, hr, hg, hb, hlen⟩

/-- Witness of C2: a text record with id `0x80000007` after one sprite record. -/
theorem draw_text_flag_discrimination_witness :
    draw World.initial (encodeScene
        ([DrawRecord.sprite 1 0 0 0] ++ DrawRecord.text 0x80000007 1 2 3 255 0 9 [65, 66] :: []))
      = .ok { World.initial with calls := [Call.clear 0 0 0, Call.draw_sprite 1 0 0 0,
                Call.draw_text 7 1 2 3 255 0 9 [65, 66] 2, Call.present] } :=
  (draw_text_flag_discrimination World.initial [DrawRecord.sprite 1 0 0 0] [] (by decide)
    (by decide) (by decide)).2 0x80000007 1 2 3 255 0 9 [65, 66] (by decide) (by decide)
    (by decide) (by decide) (by decide) (by decide) (by decide) (by decide) (by decide)

theorem scenario_scene_eq :
    scenario_scene = encodeScene [DrawRecord.sprite 5 0 0x3F800000 0] := by decide

/-- C3, as stated, fails: on the 20-byte scenario message the run of `Client::draw`
never issues the sprite draw `(5, 1.0, 0.0, 0.0)`; `0x3F800000` is the pattern of
`1.0`. -/
theorem draw_scenario_not_as_claimed :
    ∃ w, draw World.initial scenario_scene = .ok w ∧
      Call.draw_sprite 5 0x3F800000 0 0 ∉ w.calls :=
  ⟨_, rfl, by decide⟩

/-- C3, amended: on the 20-byte scenario message `Client::draw` issues exactly
one draw call between clear and present, the sprite draw with id 5, x = 0.0,
y = 1.0 (pattern `0x3F800000`, the bytes at offsets 12 to 15) and scale = 0.0. -/
theorem draw_scenario (w : World) :
    draw w scenario_scene
      = .ok { w with calls := w.calls ++ [Call.clear 0 0 0,
                Call.draw_sprite 5 0 0x3F800000 0, Call.present] } := by
  rw [scenario_scene_eq, draw_encodeScene w _ (by decide) (by decide)]
  simp [DrawRecord.call]

/-- C8: on every scene message whose count field is 0 (whatever follows the four
count bytes, and also when nothing follows them) `Client::draw` issues exactly
clear and then present, no draw call, and runs without reading any byte at
offset 4 or beyond: the message made of the count field alone decodes without
an out-of-bounds read, and the loop leaves the cursor at offset 4. -/
theorem draw_empty_frame (w : World) (rest : List Byte) :
    draw w (le32 0 ++ rest)
        = .ok { w with calls := w.calls ++ [Call.clear 0 0 0, Call.present] } ∧
    draw w (le32 0)
        = .ok { w with calls := w.calls ++ [Call.clear 0 0 0, Call.present] } ∧
    read32 (le32 0 ++ rest) 0 = .ok 0 ∧
    draw_loop (le32 0 ++ rest) 0 4 (w.call (Call.clear 0 0 0))
        = .ok (4, w.call (Call.clear 0 0 0)) := by
  have hcount : ∀ tl : List Byte, read32 (le32 0 ++ tl) 0 = .ok 0 := fun tl =>
    read32_of_drop (r := tl) (by decide) (by simp)
  have hdraw : ∀ tl : List Byte, draw w (le32 0 ++ tl)
      = .ok { w with calls := w.calls ++ [Call.clear 0 0 0, Call.present] } := by
    intro tl
    simp only [draw, hcount tl, draw_loop, bind, Except.bind, pure, Except.pure]
    simp [World.call]
  refine ⟨hdraw rest, ?_, hcount rest, rfl⟩
  simpa using hdraw []

/-- Header reads of `Client::update_content` on an encoded content message. -/
theorem update_content_header (t id : Nat) (payload : List Byte) (ht : t < 256)
    (hid : id < 2 ^ 32) (hlen : payload.length < 2 ^ 32) :
    read32 (encodeContent t id payload) 1 = .ok id ∧
    read32 (encodeContent t id payload) 5 = .ok payload.length ∧
    read8 (encodeContent t id payload) 0 = .ok t ∧
    ((encodeContent t id payload).drop 9).take payload.length = payload := by
  have e0 : (encodeContent t id payload).drop 0
      = byte t :: (le32 id ++ (le32 payload.length ++ payload)) := by
    simp [encodeContent]
  have e1 : (encodeContent t id payload).drop 1
      = le32 id ++ (le32 payload.length ++ payload) :=
    drop_add_of_drop (o := 0) (p := [byte t]) 1 e0 rfl
  have e5 : (encodeContent t id payload).drop 5 = le32 payload.length ++ payload :=
    drop_add_of_drop (o := 1) 4 e1 rfl
  have e9 : (encodeContent t id payload).drop 9 = payload ++ [] := by
    rw [List.append_nil]
    exact drop_add_of_drop (o := 5) (r := payload) 4 e5 rfl
  refine ⟨read32_of_drop hid e1, read32_of_drop hlen e5,
    read8_byte_of_drop (o := 0) ht e0, ?_⟩
  rw [e9, List.take_left]

/-- C6: on a content message made of a type byte, a little-endian id at offset 1,
a little-endian length at offset 5 and that many payload bytes at offset 9,
`Client::update_content` issues exactly one loader call, `load_image` for type 0,
`load_font` for type 1 and `load_sound` for type 2, with the id, the payload
bytes and the length; on the scenario message this is `load_image(7, [AA,BB,CC], 3)`. -/
theorem update_content_decode (w : World) (id : Nat) (payload : List Byte)
    (hid : id < 2 ^ 32) (hlen : payload.length < 2 ^ 32) :
    update_content w (encodeContent IMAGE id payload)
        = .ok { w with calls := w.calls ++ [Call.load_image id payload payload.length] } ∧
    update_content w (encodeContent FONT id payload)
        = .ok { w with calls := w.calls ++ [Call.load_font id payload payload.length] } ∧
    update_content w (encodeContent SOUND id payload)
        = .ok { w with calls := w.calls ++ [Call.load_sound id payload payload.length] } ∧
    update_content w scenario_content
        = .ok { w with calls := w.calls ++ [Call.load_image 7 [0xAA, 0xBB, 0xCC] 3] } := by
  refine ⟨?_, ?_, ?_, ?_⟩
  · obtain ⟨h1, h5, h0, hp⟩ := update_content_header IMAGE id payload (by decide) hid hlen
    simp only [update_content, h1, h5, h0, hp, bind, Except.bind, pure, Except.pure]
    simp [World.call]
  · obtain ⟨h1, h5, h0, hp⟩ := update_content_header FONT id payload (by decide) hid hlen
    simp only [update_content, h1, h5, h0, hp, bind, Except.bind, pure, Except.pure]
    simp [World.call, FONT, IMAGE]
  · obtain ⟨h1, h5, h0, hp⟩ := update_content_header SOUND id payload (by decide) hid hlen
    simp only [update_content, h1, h5, h0, hp, bind, Except.bind, pure, Except.pure]
    simp [World.call, FONT, IMAGE, SOUND]
  · rfl

/-- Witness of C6: a font with id 9 and a two-byte payload. -/
theorem update_content_decode_witness :
    update_content World.initial (encodeContent FONT 9 [1, 2])
      = .ok { World.initial with calls := [Call.load_font 9 [1, 2] 2] } :=
  (update_content_decode World.initial 9 [1, 2] (by decide) (by decide)).2.1

/-- On a buffer that holds the encoding of well-formed audio records at the
cursor, the loop of `Client::handle_audio` runs without an out-of-bounds read and
issues one `perform_command` per record, in order. -/
theorem handle_audio_loop_encode (data : List Byte) (recs : List AudioRecord) :
    ∀ (tail : List Byte) (off : Nat) (w : World), (∀ a ∈ recs, a.wf) →
      data.drop off = encodeAudioRecords recs ++ tail →
      handle_audio_loop data recs.length off w
        = .ok { w with calls := w.calls
                  ++ recs.map (fun a => Call.perform_command a.id a.channel a.volume a.type) } := by
  induction recs with
  | nil => intro tail off w _ _; simp [handle_audio_loop]
  | cons a recs ih =>
    intro tail off w hwf h
    obtain ⟨hid, hch, hvol, hty⟩ := hwf a (List.mem_cons_self _ _)
    have hrs : ∀ a' ∈ recs, a'.wf := fun a' ha' => hwf a' (List.mem_cons_of_mem _ ha')
    have e0 : data.drop off = le32 a.id ++ (le16 a.channel ++ (byte a.volume :: byte a.type ::
        (encodeAudioRecords recs ++ tail))) := by
      simpa [encodeAudioRecords, AudioRecord.encode, List.append_assoc] using h
    have e4 := drop_add_of_drop 4 e0 rfl
    have e6 : data.drop (off + 6) = byte a.volume :: byte a.type ::
        (encodeAudioRecords recs ++ tail) := drop_add_of_drop (o := off + 4) 2 e4 rfl
    have e7 : data.drop (off + 7) = byte a.type :: (encodeAudioRecords recs ++ tail) :=
      drop_add_of_drop (o := off + 6) (p := [byte a.volume]) 1 e6 rfl
    have e8 : data.drop (off + 8) = encodeAudioRecords recs ++ tail :=
      drop_add_of_drop (o := off + 7) (p := [byte a.type]) 1 e7 rfl
    have r0 := read32_of_drop hid e0
    have r4 := read16_of_drop hch e4
    have r6 := read8_byte_of_drop hvol e6
    have r7 := read8_byte_of_drop hty e7
    have step := ih tail (off + 8)
      (w.call (.perform_command a.id a.channel a.volume a.type)) hrs e8
    simp only [List.length_cons, handle_audio_loop, r0, r4, r6, r7, bind, Except.bind, step]
    simp [World.call]

theorem encodeAudioRecords_length (recs : List AudioRecord) :
    (encodeAudioRecords recs).length = 8 * recs.length := by
  induction recs with
  | nil => rfl
  | cons a recs ih =>
    simp only [encodeAudioRecords, List.length_append, ih, List.length_cons]
    simp [AudioRecord.encode, le32_length, le16]
    omega

/-- C9: on the audio message made of the little-endian count `n` and `n` 8-byte
records `(id:u32, channel:u16, volume:u8, type:u8)`, `Client::handle_audio` issues
exactly `n` `perform_command` calls, in record order, the k-th carrying the k-th
record. -/
theorem handle_audio_decode (w : World) (recs : List AudioRecord)
    (hn : recs.length < 2 ^ 32) (hwf : ∀ a ∈ recs, a.wf) :
    (encodeAudio recs).length = 4 + 8 * recs.length ∧
    handle_audio w (encodeAudio recs)
      = .ok { w with calls := w.calls
                ++ recs.map (fun a => Call.perform_command a.id a.channel a.volume a.type) } := by
  constructor
  · simp [encodeAudio, le32_length, encodeAudioRecords_length]
  · have hcount : read32 (encodeAudio recs) 0 = .ok recs.length :=
      read32_of_drop (r := encodeAudioRecords recs) hn (by simp [encodeAudio])
    have hdrop : (encodeAudio recs).drop 4 = encodeAudioRecords recs ++ [] := by
      simp [encodeAudio, le32]
    simp only [handle_audio, hcount, bind, Except.bind]
    exact handle_audio_loop_encode (encodeAudio recs) recs [] 4 w hwf hdrop

/-- Witness of C9 on two records. -/
theorem handle_audio_decode_witness :
    handle_audio World.initial (encodeAudio [⟨7, 300, 255, 1⟩, ⟨0xFFFFFFFF, 0, 0, 2⟩])
      = .ok { World.initial with calls := [Call.perform_command 7 300 255 1,
                Call.perform_command 0xFFFFFFFF 0 0 2] } :=
  (handle_audio_decode World.initial [⟨7, 300, 255, 1⟩, ⟨0xFFFFFFFF, 0, 0, 2⟩] (by decide)
    (by decide)).2

/-! ## Text input -/

theorem Window.start_text_input_idem (win : Window) :
    win.start_text_input.start_text_input = win.start_text_input := by
  cases h : win.sdl.text_input_active <;>
    simp [Window.start_text_input, SDL_IsTextInputActive, SDL_StartTextInput, h]

theorem Window.start_text_input_calls (win : Window) :
    win.start_text_input.sdl.start_text_input_calls
      = win.sdl.start_text_input_calls + (if win.sdl.text_input_active then 0 else 1) := by
  cases h : win.sdl.text_input_active <;>
    simp [Window.start_text_input, SDL_IsTextInputActive, SDL_StartTextInput, h]

/-- C7: two consecutive START_TEXT_INPUT codes, at any place of a command message,
make `Client::handle_commands` call `Window::start_text_input` twice, and the two
calls together run `SDL_StartTextInput` at most once: the second call leaves the
window as the first left it, and when text input is active before them neither
runs `SDL_StartTextInput`. The same holds for the message made of count 2 and
the two codes. -/
theorem handle_commands_start_twice (w : World) :
    (∀ (data : List Byte) (n i : Nat),
        read8 data (4 + i) = .ok START_TEXT_INPUT →
        read8 data (4 + (i + 1)) = .ok START_TEXT_INPUT →
        handle_commands_loop data (n + 2) i w
          = handle_commands_loop data n (i + 2)
              { w with calls := w.calls ++ [Call.start_text_input, Call.start_text_input],
                       window := w.window.start_text_input }) ∧
    (∀ rest : List Byte,
        handle_commands w (le32 2 ++ byte START_TEXT_INPUT :: byte START_TEXT_INPUT :: rest)
          = .ok { w with calls := w.calls ++ [Call.start_text_input, Call.start_text_input],
                         window := w.window.start_text_input }) ∧
    w.window.start_text_input.start_text_input = w.window.start_text_input ∧
    w.window.start_text_input.sdl.start_text_input_calls
      = w.window.sdl.start_text_input_calls + (if w.window.sdl.text_input_active then 0 else 1) ∧
    w.window.start_text_input.sdl.start_text_input_calls
      ≤ w.window.sdl.start_text_input_calls + 1 ∧
    (w.window.sdl.text_input_active = true → w.window.start_text_input = w.window) := by
  have hloop : ∀ (data : List Byte) (n i : Nat),
      read8 data (4 + i) = .ok START_TEXT_INPUT →
      read8 data (4 + (i + 1)) = .ok START_TEXT_INPUT →
      handle_commands_loop data (n + 2) i w
        = handle_commands_loop data n (i + 2)
            { w with calls := w.calls ++ [Call.start_text_input, Call.start_text_input],
                     window := w.window.start_text_input } := by
    intro data n i h0 h1
    simp only [handle_commands_loop, h0, h1, bind, Except.bind, if_true]
    simp [World.call, Window.start_text_input_idem]
  refine ⟨hloop, ?_, Window.start_text_input_idem _, Window.start_text_input_calls _, ?_, ?_⟩
  · intro rest
    have hcount : read32 (le32 2 ++ byte START_TEXT_INPUT :: byte START_TEXT_INPUT :: rest) 0
        = .ok 2 :=
      read32_of_drop (r := byte START_TEXT_INPUT :: byte START_TEXT_INPUT :: rest)
        (by decide) (by simp)
    have h0 : read8 (le32 2 ++ byte START_TEXT_INPUT :: byte START_TEXT_INPUT :: rest) (4 + 0)
        = .ok START_TEXT_INPUT :=
      read8_byte_of_drop (r := byte START_TEXT_INPUT :: rest) (by decide) (by simp [le32])
    have h1 : read8 (le32 2 ++ byte START_TEXT_INPUT :: byte START_TEXT_INPUT :: rest)
        (4 + (0 + 1)) = .ok START_TEXT_INPUT :=
      read8_byte_of_drop (r := rest) (by decide) (by simp [le32])
    simp only [handle_commands, hcount, bind, Except.bind]
    rw [hloop _ 0 0 h0 h1]
    rfl
  · rw [Window.start_text_input_calls]
    split <;> omega
  · intro hact
    simp [Window.start_text_input, SDL_IsTextInputActive, hact]

/-- Witness of C7: count 3 with START, START, STOP, on a window without active
text input: `SDL_StartTextInput` has run once when the message is decoded. -/
theorem handle_commands_start_twice_witness :
    handle_commands_loop [3, 0, 0, 0, 0, 0, 1] (1 + 2) 0 World.initial
      = handle_commands_loop [3, 0, 0, 0, 0, 0, 1] 1 (0 + 2)
          { World.initial with
              calls := [Call.start_text_input, Call.start_text_input],
              window := World.initial.window.start_text_input } :=
  (handle_commands_start_twice World.initial).1 [3, 0, 0, 0, 0, 0, 1] 1 0 rfl rfl

/-! ## `Client::update` -/

/-- C4, as stated, fails: a receive event on the INPUT channel (channel 0) is
handed to no decoder; even a well-formed scene message arriving there causes no
collaborator call and is only released. -/
theorem route_input_channel_none :
    route INPUT_CHANNEL = none ∧
    receive World.initial ⟨.RECEIVE, INPUT_CHANNEL, scenario_scene⟩
      = .ok { World.initial with released := 1 } :=
  ⟨rfl, rfl⟩

/-- C4, amended: a receive event on channel SPRITE (1), COMMAND (2), CONTENT (3) or
AUDIO (4) is handed to exactly one decoder, `draw`, `handle_commands`,
`update_content` or `handle_audio` respectively, and the packet is then released;
a receive event on any other channel, INPUT (0) among them, is handed to no
decoder and the packet is only released. -/
theorem route_channel_isolation (w : World) (packet : List Byte) :
    route SPRITE_CHANNEL = some Decoder.draw ∧
    route COMMAND_CHANNEL = some Decoder.handle_commands ∧
    route CONTENT_CHANNEL = some Decoder.update_content ∧
    route AUDIO_CHANNEL = some Decoder.handle_audio ∧
    (∀ X : Nat, X ≠ SPRITE_CHANNEL → X ≠ COMMAND_CHANNEL → X ≠ CONTENT_CHANNEL →
      X ≠ AUDIO_CHANNEL → route X = none) ∧
    receive w ⟨.RECEIVE, SPRITE_CHANNEL, packet⟩ = (draw w packet).map World.release ∧
    receive w ⟨.RECEIVE, COMMAND_CHANNEL, packet⟩
      = (handle_commands w packet).map World.release ∧
    receive w ⟨.RECEIVE, CONTENT_CHANNEL, packet⟩
      = (update_content w packet).map World.release ∧
    receive w ⟨.RECEIVE, AUDIO_CHANNEL, packet⟩ = (handle_audio w packet).map World.release ∧
    receive w ⟨.RECEIVE, INPUT_CHANNEL, packet⟩ = .ok w.release := by
  refine ⟨rfl, rfl, rfl, rfl, ?_, ?_, ?_, ?_, ?_, rfl⟩
  · intro X h1 h2 h3 h4
    simp [route, h1, h2, h3, h4]
  · show Except.bind (draw w packet) _ = _
    cases draw w packet <;> rfl
  · show Except.bind (handle_commands w packet) _ = _
    cases handle_commands w packet <;> rfl
  · show Except.bind (update_content w packet) _ = _
    cases update_content w packet <;> rfl
  · show Except.bind (handle_audio w packet) _ = _
    cases handle_audio w packet <;> rfl

/-- Witness of the amended C4: channel 7 is handed to no decoder. -/
theorem route_channel_isolation_witness : route 7 = none :=
  (route_channel_isolation World.initial []).2.2.2.2.1 7 (by decide) (by decide) (by decide)
    (by decide)

theorem service_loop_disconnect (pre post : List ENetEvent) (d : ENetEvent)
    (hd : d.isDisconnect) :
    ∀ w : World, service_loop (pre ++ d :: post) w
      = (service_loop pre w).map (fun r => (false, r.2)) := by
  induction pre with
  | nil =>
    intro w
    rcases hd with hd | hd <;> simp [service_loop, hd, Except.map]
  | cons e pre ih =>
    intro w
    rw [List.cons_append]
    cases ht : e.type with
    | NONE => simp only [service_loop, ht]; exact ih w
    | CONNECT => simp only [service_loop, ht]; exact ih w
    | DISCONNECT => simp only [service_loop, ht, Except.map]
    | DISCONNECT_TIMEOUT => simp only [service_loop, ht, Except.map]
    | RECEIVE =>
      simp only [service_loop, ht, bind, Except.bind]
      cases receive w e with
      | error err => rfl
      | ok v => exact ih v

theorem service_loop_no_disconnect (evs : List ENetEvent)
    (hnd : ∀ e ∈ evs, ¬ e.isDisconnect)
    (hdec : ∀ e ∈ evs, e.type = .RECEIVE → e.decodes) :
    ∀ w : World, ∃ w', service_loop evs w = .ok (true, w') := by
  induction evs with
  | nil => intro w; exact ⟨w, rfl⟩
  | cons e evs ih =>
    intro w
    have ih' := ih (fun x hx => hnd x (List.mem_cons_of_mem _ hx))
      (fun x hx => hdec x (List.mem_cons_of_mem _ hx))
    have hne := hnd e (List.mem_cons_self _ _)
    cases ht : e.type with
    | NONE => simpa only [service_loop, ht] using ih' w
    | CONNECT => simpa only [service_loop, ht] using ih' w
    | DISCONNECT => exact absurd (Or.inl ht) hne
    | DISCONNECT_TIMEOUT => exact absurd (Or.inr ht) hne
    | RECEIVE =>
      obtain ⟨v, hv⟩ := hdec e (List.mem_cons_self _ _) ht w
      obtain ⟨w', hw'⟩ := ih' v
      exact ⟨w', by simp only [service_loop, ht, hv, bind, Except.bind, hw']⟩

/-- C5: in one call of `Client::update`, a disconnect-type event `d` ends the
drain: the result on `pre ++ d :: post` is the result on `pre` alone with return
value false, so nothing after `d` is decoded or dispatched; when the events
before `d` hold no disconnect and the packets of the receive-type events among
them decode, `update` returns false with exactly the world those events produce;
and when the queue holds no disconnect-type event and the packets of its
receive-type events decode, `update` returns true. Events of another type are
skipped unread, so nothing is asked of them. -/
theorem update_disconnect_termination
    (create_input_packet : Input → Option (List Byte) × Input) (w : World) :
    (∀ (pre post : List ENetEvent) (d : ENetEvent), d.isDisconnect →
        update create_input_packet (pre ++ d :: post) w
          = (update create_input_packet pre w).map (fun r => (false, r.2))) ∧
    (∀ (pre post : List ENetEvent) (d : ENetEvent), d.isDisconnect →
        (∀ e ∈ pre, ¬ e.isDisconnect) → (∀ e ∈ pre, e.type = .RECEIVE → e.decodes) →
        ∃ w', update create_input_packet pre w = .ok (true, w') ∧
          update create_input_packet (pre ++ d :: post) w = .ok (false, w')) ∧
    (∀ evs : List ENetEvent, (∀ e ∈ evs, ¬ e.isDisconnect) →
        (∀ e ∈ evs, e.type = .RECEIVE → e.decodes) →
        ∃ w', update create_input_packet evs w = .ok (true, w')) := by
  refine ⟨?_, ?_, ?_⟩
  · intro pre post d hd
    simp only [update]
    exact service_loop_disconnect pre post d hd _
  · intro pre post d hd hnd hdec
    simp only [update]
    obtain ⟨w', hw'⟩ := service_loop_no_disconnect pre hnd hdec
      (match (create_input_packet w.window.input).1 with
        | some p =>
          { w with window := { w.window with input := (create_input_packet w.window.input).2 },
                   sent := w.sent ++ [⟨w.peer, INPUT_CHANNEL, p⟩] }
        | none =>
          { w with window := { w.window with input := (create_input_packet w.window.input).2 } })
    refine ⟨w', hw', ?_⟩
    rw [service_loop_disconnect pre post d hd, hw']
    rfl
  · intro evs hnd hdec
    simp only [update]
    exact service_loop_no_disconnect evs hnd hdec _

theorem scene_event_decodes : scene_event.decodes := fun _ => ⟨_, rfl⟩

/-- The packet of `connect_event` would not decode; the loop skips the event. -/
theorem connect_event_not_decodes : ¬ connect_event.decodes := by
  intro h
  obtain ⟨v, hv⟩ := h World.initial
  have herr : receive World.initial connect_event = .error 0 := rfl
  rw [herr] at hv
  cases hv

/-- Witness of C5: a connect event with an empty packet, a scene message, then a
disconnect, then a content message: `update` returns false and the world is the
one the events before the disconnect give. -/
theorem update_disconnect_termination_witness :
    ∃ w', update no_input_packet [connect_event, scene_event] World.initial
        = .ok (true, w') ∧
      update no_input_packet
          ([connect_event, scene_event] ++ disconnect_event :: [content_event])
        World.initial = .ok (false, w') :=
  (update_disconnect_termination no_input_packet World.initial).2.1
    [connect_event, scene_event] [content_event] disconnect_event (by decide) (by decide)
    (by
      intro e he ht
      rcases List.mem_cons.mp he with rfl | he
      · cases ht
      · rw [List.mem_singleton] at he
        subst he
        exact scene_event_decodes)

/-! ## `Client::connect` -/

/-- C10, as stated, fails: when name resolution succeeds and no event arrives
within the timeout, `Client::connect` returns false and the peer handle is the
one `enet_host_connect` returned, not the one before the call. -/
theorem connect_timeout_changes_peer :
    (connect false timeout_env World.initial "localhost" 1234).1 = false ∧
    (connect false timeout_env World.initial "localhost" 1234).2.peer = some 1 ∧
    World.initial.peer = none :=
  ⟨rfl, rfl, rfl⟩

/-- C10, amended: `Client::connect` returns false exactly when name resolution
fails or no connection-established event arrives in time; whenever it returns
false no login record has been sent and the window state is as before; when
resolution failed the peer handle is the same as before the call, and when
resolution succeeded the peer handle is the one `enet_host_connect` returned. -/
theorem connect_failure (mobile : Bool) (env : ConnectEnv) (w : World) (hostname : String)
    (port : Nat) :
    ((connect mobile env w hostname port).1 = false ↔
      (env.set_host < 0 ∨ ¬ (env.service > 0 ∧ env.event.type = .CONNECT))) ∧
    ((connect mobile env w hostname port).1 = false →
      (connect mobile env w hostname port).2.sent = w.sent ∧
      (connect mobile env w hostname port).2.window = w.window ∧
      (connect mobile env w hostname port).2.released = w.released ∧
      (env.set_host < 0 → (connect mobile env w hostname port).2.peer = w.peer) ∧
      (¬ env.set_host < 0 →
        (connect mobile env w hostname port).2.peer = env.host_connect)) := by
  unfold connect
  by_cases h1 : env.set_host < 0
  · simp [h1, World.call]
  · by_cases h2 : env.service > 0 ∧ env.event.type = .CONNECT
    · simp [h1, h2]
    · simp only [h1, h2, if_false, World.call]
      simp

/-- Witness of the amended C10 on the timeout run. -/
theorem connect_failure_witness :
    (connect false timeout_env World.initial "localhost" 1234).2.sent = [] ∧
    (connect false timeout_env World.initial "localhost" 1234).2.peer = some 1 :=
  have h := (connect_failure false timeout_env World.initial "localhost" 1234).2 rfl
  ⟨h.1, h.2.2.2.2 (by decide)⟩

/-! ## `Client::handle_commands` on whole messages -/

/-- On a buffer that holds the command bytes `cmds` at index `i`, the loop of
`Client::handle_commands` runs over exactly these bytes, in order. -/
theorem handle_commands_loop_bytes (data rest : List Byte) (cmds : List Byte) :
    ∀ (i : Nat) (w : World), data.drop (4 + i) = cmds ++ rest →
      handle_commands_loop data cmds.length i w
        = .ok { w with calls := w.calls ++ cmds.filterMap command_call,
                       window := cmds.foldl command_window w.window } := by
  induction cmds with
  | nil => intro i w _; simp [handle_commands_loop]
  | cons b cmds ih =>
    intro i w h
    have hb : read8 data (4 + i) = .ok b.val := read8_of_drop (r := cmds ++ rest) h
    have hnext : data.drop (4 + (i + 1)) = cmds ++ rest :=
      drop_add_of_drop (o := 4 + i) (p := [b]) 1 h rfl
    by_cases h0 : b.val = START_TEXT_INPUT
    · simp only [List.length_cons, handle_commands_loop, hb, bind, Except.bind, h0, if_true,
        ih (i + 1) _ hnext]
      simp [World.call, command_call, command_window, h0]
    · by_cases h1 : b.val = STOP_TEXT_INPUT
      · have hne : ¬ STOP_TEXT_INPUT = START_TEXT_INPUT := by decide
        simp only [List.length_cons, handle_commands_loop, hb, bind, Except.bind, h0, h1,
          if_true, if_false, ih (i + 1) _ hnext]
        simp [World.call, command_call, command_window, h1, hne]
      · simp only [List.length_cons, handle_commands_loop, hb, bind, Except.bind, h0, h1,
          if_false, ih (i + 1) _ hnext]
        simp [command_call, command_window, h0, h1]

/-- C11: `Window::stop_text_input` leaves the composed text empty and the
composition-changed flag set, whatever the window held before; and a
STOP_TEXT_INPUT code at any place of a command message makes
`Client::handle_commands` run it, so that after the message made of count 1 and
that code the composition is empty and the flag is set. -/
theorem stop_text_input_clears_composition (w : World) :
    w.window.stop_text_input.input.composition = [] ∧
    w.window.stop_text_input.input.changed_composition = true ∧
    (∀ (data : List Byte) (n i : Nat), read8 data (4 + i) = .ok STOP_TEXT_INPUT →
        handle_commands_loop data (n + 1) i w
          = handle_commands_loop data n (i + 1)
              { w with calls := w.calls ++ [Call.stop_text_input],
                       window := w.window.stop_text_input }) ∧
    (∀ rest : List Byte, ∃ w',
        handle_commands w (le32 1 ++ byte STOP_TEXT_INPUT :: rest) = .ok w' ∧
        w'.window.input.composition = [] ∧
        w'.window.input.changed_composition = true) := by
  refine ⟨rfl, rfl, ?_, ?_⟩
  · intro data n i h
    simp only [handle_commands_loop, h, bind, Except.bind]
    simp [World.call, START_TEXT_INPUT, STOP_TEXT_INPUT]
  · intro rest
    have hcount : read32 (le32 1 ++ byte STOP_TEXT_INPUT :: rest) 0 = .ok 1 :=
      read32_of_drop (r := byte STOP_TEXT_INPUT :: rest) (by decide) (by simp)
    have hloop := handle_commands_loop_bytes (le32 1 ++ byte STOP_TEXT_INPUT :: rest) rest
      [byte STOP_TEXT_INPUT] 0 w (by simp [le32])
    refine ⟨{ w with calls := w.calls ++ [byte STOP_TEXT_INPUT].filterMap command_call,
                     window := [byte STOP_TEXT_INPUT].foldl command_window w.window },
      ?_, rfl, rfl⟩
    simp only [handle_commands, hcount, bind, Except.bind]
    exact hloop

/-- Witness of C11: a STOP code as third command of a message. -/
theorem stop_text_input_clears_composition_witness :
    handle_commands_loop [3, 0, 0, 0, 0, 0, 1] (0 + 1) 2 World.initial
      = handle_commands_loop [3, 0, 0, 0, 0, 0, 1] 0 (2 + 1)
          { World.initial with
              calls := [Call.stop_text_input],
              window := World.initial.window.stop_text_input } :=
  (stop_text_input_clears_composition World.initial).2.2.1 [3, 0, 0, 0, 0, 0, 1] 0 2 rfl

/-- C14: on a command message whose count field is `n` and which holds at least
`n` further bytes, `Client::handle_commands` makes, in byte order, one
`start_text_input` call per byte 0 and one `stop_text_input` call per byte 1 among
the first `n` bytes, and the window is the one these calls leave; a byte with
another value makes no call and the bytes after it are still processed; the
bytes beyond the first `n` are not read. -/
theorem handle_commands_decode (w : World) (cmds rest : List Byte)
    (hn : cmds.length < 2 ^ 32) :
    handle_commands w (le32 cmds.length ++ cmds ++ rest)
        = .ok { w with calls := w.calls ++ cmds.filterMap command_call,
                       window := cmds.foldl command_window w.window } ∧
    handle_commands w (le32 cmds.length ++ cmds)
        = .ok { w with calls := w.calls ++ cmds.filterMap command_call,
                       window := cmds.foldl command_window w.window } ∧
    (∀ b : Byte, command_call b =
        if b.val = 0 then some Call.start_text_input
        else if b.val = 1 then some Call.stop_text_input else none) := by
  have key : ∀ tl : List Byte, handle_commands w (le32 cmds.length ++ cmds ++ tl)
      = .ok { w with calls := w.calls ++ cmds.filterMap command_call,
                     window := cmds.foldl command_window w.window } := by
    intro tl
    have hcount : read32 (le32 cmds.length ++ cmds ++ tl) 0 = .ok cmds.length :=
      read32_of_drop (r := cmds ++ tl) hn (by simp)
    simp only [handle_commands, hcount, bind, Except.bind]
    exact handle_commands_loop_bytes _ tl cmds 0 w (by simp [le32])
  refine ⟨key rest, ?_, fun b => rfl⟩
  simpa using key []

/-- Witness of C14: the bytes START, 7, STOP, followed by one byte beyond the
count. -/
theorem handle_commands_decode_witness :
    handle_commands World.initial (le32 3 ++ [0, 7, 1] ++ [0])
      = .ok { World.initial with
                calls := [Call.start_text_input, Call.stop_text_input],
                window := World.initial.window.start_text_input.stop_text_input } :=
  (handle_commands_decode World.initial [0, 7, 1] [0] (by decide)).1

/-! ## Reads and the bounds of the buffer -/

theorem read8_of_lt {data : List Byte} {off : Nat} (h : off < data.length) :
    read8 data off = .ok (data.get ⟨off, h⟩).val := by
  simp [read8, List.getElem?_eq_getElem h]

theorem read8_of_le {data : List Byte} {off : Nat} (h : data.length ≤ off) :
    read8 data off = .error off := by
  simp [read8, List.getElem?_eq_none h]

theorem read8_ok_lt {data : List Byte} {off v : Nat} (h : read8 data off = .ok v) :
    off < data.length := by
  by_contra hlt
  rw [read8_of_le (Nat.le_of_not_lt hlt)] at h
  cases h

theorem read8_error_ge {data : List Byte} {off o : Nat} (h : read8 data off = .error o) :
    data.length ≤ o := by
  by_cases hlt : off < data.length
  · rw [read8_of_lt hlt] at h
    cases h
  · rw [read8_of_le (Nat.le_of_not_lt hlt)] at h
    cases h
    exact Nat.le_of_not_lt hlt

theorem bind_eq_error {α β : Type} {x : Except Nat α} {f : α → Except Nat β} {o : Nat}
    (h : x >>= f = .error o) : x = .error o ∨ ∃ a, x = .ok a ∧ f a = .error o := by
  cases x with
  | error e => left; simpa [bind, Except.bind] using h
  | ok a => right; exact ⟨a, rfl, h⟩

theorem bind_eq_ok {α β : Type} {x : Except Nat α} {f : α → Except Nat β} {b : β}
    (h : x >>= f = .ok b) : ∃ a, x = .ok a ∧ f a = .ok b := by
  cases x with
  | error e => cases h
  | ok a => exact ⟨a, rfl, h⟩

theorem read32_error_ge {data : List Byte} {off o : Nat} (h : read32 data off = .error o) :
    data.length ≤ o := by
  unfold read32 at h
  rcases bind_eq_error h with h | ⟨_, _, h⟩
  · exact read8_error_ge h
  rcases bind_eq_error h with h | ⟨_, _, h⟩
  · exact read8_error_ge h
  rcases bind_eq_error h with h | ⟨_, _, h⟩
  · exact read8_error_ge h
  rcases bind_eq_error h with h | ⟨_, _, h⟩
  · exact read8_error_ge h
  cases h

theorem read32_ok_le {data : List Byte} {off v : Nat} (h : read32 data off = .ok v) :
    off + 4 ≤ data.length := by
  unfold read32 at h
  obtain ⟨_, _, h⟩ := bind_eq_ok h
  obtain ⟨_, _, h⟩ := bind_eq_ok h
  obtain ⟨_, _, h⟩ := bind_eq_ok h
  obtain ⟨_, h3, _⟩ := bind_eq_ok h
  have := read8_ok_lt h3
  omega

theorem read32_of_le (data : List Byte) (off : Nat) (h : off + 4 ≤ data.length) :
    ∃ v, read32 data off = .ok v := by
  simp only [read32, read8_of_lt (show off < data.length by omega),
    read8_of_lt (show off + 1 < data.length by omega),
    read8_of_lt (show off + 2 < data.length by omega),
    read8_of_lt (show off + 3 < data.length by omega), bind, Except.bind]
  exact ⟨_, rfl⟩

theorem draw_loop_error_ge (data : List Byte) :
    ∀ (n off : Nat) (w : World) (o : Nat), draw_loop data n off w = .error o →
      data.length ≤ o := by
  intro n
  induction n with
  | zero => intro off w o h; cases h
  | succ n ih =>
    intro off w o h
    simp only [draw_loop, read_float] at h
    rcases bind_eq_error h with h | ⟨id, _, h⟩
    · exact read32_error_ge h
    rcases bind_eq_error h with h | ⟨x, _, h⟩
    · exact read32_error_ge h
    rcases bind_eq_error h with h | ⟨y, _, h⟩
    · exact read32_error_ge h
    rcases bind_eq_error h with h | ⟨scale, _, h⟩
    · exact read32_error_ge h
    split at h
    · rcases bind_eq_error h with h | ⟨r, _, h⟩
      · exact read8_error_ge h
      rcases bind_eq_error h with h | ⟨g, _, h⟩
      · exact read8_error_ge h
      rcases bind_eq_error h with h | ⟨b, _, h⟩
      · exact read8_error_ge h
      rcases bind_eq_error h with h | ⟨len, _, h⟩
      · exact read32_error_ge h
      exact ih _ _ _ h
    · exact ih _ _ _ h

theorem draw_error_ge {w : World} {data : List Byte} {o : Nat}
    (h : draw w data = .error o) : data.length ≤ o := by
  simp only [draw] at h
  rcases bind_eq_error h with h | ⟨n, _, h⟩
  · exact read32_error_ge h
  rcases bind_eq_error h with h | ⟨r, _, h⟩
  · exact draw_loop_error_ge _ _ _ _ _ h
  cases h

theorem update_content_error_ge {w : World} {data : List Byte} {o : Nat}
    (h : update_content w data = .error o) : data.length ≤ o := by
  simp only [update_content] at h
  rcases bind_eq_error h with h | ⟨id, _, h⟩
  · exact read32_error_ge h
  rcases bind_eq_error h with h | ⟨len, _, h⟩
  · exact read32_error_ge h
  rcases bind_eq_error h with h | ⟨t, _, h⟩
  · exact read8_error_ge h
  split at h
  · cases h
  · split at h
    · cases h
    · split at h <;> cases h

/-! ## Mixed draw lists -/

theorem DrawRecord.encode_length_sprite (id x y scale : Nat) :
    (DrawRecord.sprite id x y scale).encode.length = 16 := by
  simp [DrawRecord.encode, le32_length]

theorem DrawRecord.encode_length_text (id x y scale r g b : Nat) (bytes : List Byte) :
    (DrawRecord.text id x y scale r g b bytes).encode.length = 16 + 3 + 4 + bytes.length := by
  simp [DrawRecord.encode, le32_length]
  omega

/-- C13: on the scene message of a list of well-formed records mixing sprites
(16 bytes each) and texts (16 + 3 + 4 + text length bytes each, of any text
length below 2^32, 0 included), `Client::draw` issues clear, then one draw call per
record in order with the original fields (a text call carries `id & 0x7FFFFFFF`,
r, g, b, exactly the text bytes and their length), then present; the number of
draw calls is the count field, whatever the text lengths are. -/
theorem draw_mixed_roundtrip (w : World) (rs : List DrawRecord) (hn : rs.length < 2 ^ 32)
    (hwf : ∀ r ∈ rs, r.wf) :
    draw w (encodeScene rs)
      = .ok { w with calls := w.calls ++ [Call.clear 0 0 0] ++ rs.map DrawRecord.call
                ++ [Call.present] } ∧
    read32 (encodeScene rs) 0 = .ok rs.length ∧
    (rs.map DrawRecord.call).length = rs.length ∧
    (∀ id x y scale : Nat,
      (DrawRecord.sprite id x y scale).encode.length = 16 ∧
      (DrawRecord.sprite id x y scale).call = Call.draw_sprite id x y scale) ∧
    (∀ (id x y scale r g b : Nat) (bytes : List Byte),
      (DrawRecord.text id x y scale r g b bytes).encode.length = 16 + 3 + 4 + bytes.length ∧
      (DrawRecord.text id x y scale r g b bytes).call
        = Call.draw_text (id &&& 0x7FFFFFFF) x y scale r g b bytes bytes.length) := by
  refine ⟨draw_encodeScene w rs hn hwf, ?_, by simp, ?_, ?_⟩
  · exact read32_of_drop (r := encodeRecords rs) hn (by simp [encodeScene])
  · intro id x y scale
    exact ⟨DrawRecord.encode_length_sprite id x y scale, rfl⟩
  · intro id x y scale r g b bytes
    exact ⟨DrawRecord.encode_length_text id x y scale r g b bytes, rfl⟩

/-- Witness of C13: a sprite, a text of two bytes, an empty text, a sprite. -/
theorem draw_mixed_roundtrip_witness :
    draw World.initial (encodeScene [DrawRecord.sprite 5 1 2 3,
        DrawRecord.text 0x80000007 1 2 3 255 0 9 [65, 66],
        DrawRecord.text 0x80000001 0 0 0 1 2 3 [], DrawRecord.sprite 6 0 0 0])
      = .ok { World.initial with calls := [Call.clear 0 0 0, Call.draw_sprite 5 1 2 3,
                Call.draw_text 7 1 2 3 255 0 9 [65, 66] 2, Call.draw_text 1 0 0 0 1 2 3 [] 0,
                Call.draw_sprite 6 0 0 0, Call.present] } :=
  (draw_mixed_roundtrip World.initial [DrawRecord.sprite 5 1 2 3,
    DrawRecord.text 0x80000007 1 2 3 255 0 9 [65, 66],
    DrawRecord.text 0x80000001 0 0 0 1 2 3 [], DrawRecord.sprite 6 0 0 0]
    (by decide) (by decide)).1

/-- C18: a content message of at least 9 bytes whose type byte is not 0, 1 or 2
makes `Client::update_content` call no loader and report nothing: the world is
left as it was. The id and length fields are read all the same, before the type
byte is looked at: every run that ends without an out-of-bounds read has read up
to offset 8, and on a message shorter than 9 bytes the run ends in a read outside
the message, whatever the type byte is. -/
theorem update_content_unrecognized (w : World) :
    (∀ (t : Byte) (body : List Byte), t.val ≠ IMAGE → t.val ≠ FONT → t.val ≠ SOUND →
        9 ≤ (t :: body).length → update_content w (t :: body) = .ok w) ∧
    (∀ (t id : Nat) (payload : List Byte), t < 256 → t ≠ 0 → t ≠ 1 → t ≠ 2 →
        id < 2 ^ 32 → payload.length < 2 ^ 32 →
        update_content w (encodeContent t id payload) = .ok w) ∧
    (∀ (data : List Byte) (w' : World), update_content w data = .ok w' →
        9 ≤ data.length) ∧
    (∀ data : List Byte, data.length < 9 →
        ∃ o, update_content w data = .error o ∧ data.length ≤ o) := by
  have hok : ∀ (data : List Byte) (w' : World), update_content w data = .ok w' →
      9 ≤ data.length := by
    intro data w' h
    simp only [update_content] at h
    obtain ⟨_, _, h⟩ := bind_eq_ok h
    obtain ⟨_, h5, _⟩ := bind_eq_ok h
    have := read32_ok_le h5
    omega
  have hshort : ∀ data : List Byte, data.length < 9 →
      ∃ o, update_content w data = .error o ∧ data.length ≤ o := by
    intro data hlt
    cases h : update_content w data with
    | error o => exact ⟨o, rfl, update_content_error_ge h⟩
    | ok w' => have := hok data w' h; omega
  have hfull : ∀ (t : Byte) (body : List Byte), t.val ≠ IMAGE → t.val ≠ FONT →
      t.val ≠ SOUND → 9 ≤ (t :: body).length → update_content w (t :: body) = .ok w := by
    intro t body h0 h1 h2 hlen
    obtain ⟨id, hid⟩ := read32_of_le (t :: body) 1 (by omega)
    obtain ⟨len, hlen5⟩ := read32_of_le (t :: body) 5 (by omega)
    have ht : read8 (t :: body) 0 = .ok t.val := by simp [read8]
    simp only [update_content, hid, hlen5, ht, bind, Except.bind, h0, h1, h2, if_false]
    rfl
  refine ⟨hfull, ?_, hok, hshort⟩
  intro t id payload ht h0 h1 h2 _ _
  have hv : (byte t).val = t := by rw [byte_val, Nat.mod_eq_of_lt ht]
  have := hfull (byte t) (le32 id ++ le32 payload.length ++ payload)
    (by rw [hv]; exact h0) (by rw [hv]; exact h1) (by rw [hv]; exact h2)
    (by simp [le32_length]; omega)
  simpa [encodeContent] using this

/-- Witness of C18: type byte 3 with id 7 and a three-byte payload. -/
theorem update_content_unrecognized_witness :
    update_content World.initial (encodeContent 3 7 [0xAA, 0xBB, 0xCC]) = .ok World.initial :=
  (update_content_unrecognized World.initial).2.1 3 7 [0xAA, 0xBB, 0xCC] (by decide)
    (by decide) (by decide) (by decide) (by decide) (by decide)

/-- C15: the decoders check no length. The scene message made of the count field
alone with count 1 makes `Client::draw` read at offset 4, the length of the
message; a content message cut after the id makes `Client::update_content` read
at offset 5; a content message that declares 3 payload bytes and holds one is
not rejected: `load_image` is handed the declared length 3 with one byte in
range. Every failed run of the two decoders is a read at an offset at or beyond
the message length. -/
theorem decoders_no_bounds_check :
    draw World.initial [1, 0, 0, 0] = .error 4 ∧
    [(1 : Byte), 0, 0, 0].length ≤ 4 ∧
    read32 [(1 : Byte), 0, 0, 0] 0 = .ok 1 ∧
    update_content World.initial [0, 7, 0, 0, 0] = .error 5 ∧
    update_content World.initial [0, 7, 0, 0, 0, 3, 0, 0, 0, 0xAA]
      = .ok { World.initial with calls := [Call.load_image 7 [0xAA] 3] } ∧
    (∀ (w : World) (data : List Byte) (o : Nat), draw w data = .error o →
        data.length ≤ o) ∧
    (∀ (w : World) (data : List Byte) (o : Nat), update_content w data = .error o →
        data.length ≤ o) :=
  ⟨rfl, by decide, rfl, rfl, rfl, fun _ _ _ h => draw_error_ge h,
    fun _ _ _ h => update_content_error_ge h⟩

/-- Witness of C15: the failed run on the count-only scene message is a read at
or beyond the end of the message. -/
theorem decoders_no_bounds_check_witness : [(1 : Byte), 0, 0, 0].length ≤ 4 :=
  decoders_no_bounds_check.2.2.2.2.2.1 World.initial [1, 0, 0, 0] 4 rfl

/-! ## Backspace in `Window::update` -/

set_option maxRecDepth 100000 in
theorem is_continuation_iff (b : Byte) :
    is_continuation b ↔ 0x80 ≤ b.val ∧ b.val < 0xC0 := by
  revert b
  unfold is_continuation
  decide

theorem utf8_code_point_shape {c : List Byte} (h : utf8_code_point c) :
    ∃ lead conts, c = lead :: conts ∧ ¬ is_continuation lead ∧
      ∀ b ∈ conts, is_continuation b := by
  match c, h with
  | [b0], h =>
    refine ⟨b0, [], rfl, ?_, by simp⟩
    rw [is_continuation_iff]
    simp only [utf8_code_point] at h
    omega
  | [b0, b1], h =>
    obtain ⟨h0, h0', h1⟩ := h
    refine ⟨b0, [b1], rfl, ?_, by simp [h1]⟩
    rw [is_continuation_iff]
    omega
  | [b0, b1, b2], h =>
    obtain ⟨h0, h0', h1, h2⟩ := h
    refine ⟨b0, [b1, b2], rfl, ?_, by simp [h1, h2]⟩
    rw [is_continuation_iff]
    omega
  | [b0, b1, b2, b3], h =>
    obtain ⟨h0, h0', h1, h2, h3⟩ := h
    refine ⟨b0, [b1, b2, b3], rfl, ?_, by simp [h1, h2, h3]⟩
    rw [is_continuation_iff]
    omega

theorem pop_continuation_append (cs : List Byte) (lead : Byte) (rest : List Byte)
    (hcs : ∀ b ∈ cs, is_continuation b) (hlead : ¬ is_continuation lead) :
    pop_continuation (cs ++ lead :: rest) = lead :: rest := by
  induction cs with
  | nil =>
    have : ¬ (lead.val &&& 0xC0 = 0x80) := hlead
    simp [pop_continuation, this]
  | cons b cs ih =>
    have hb : b.val &&& 0xC0 = 0x80 := hcs b (List.mem_cons_self _ _)
    simp only [List.cons_append, pop_continuation, hb, if_true]
    exact ih (fun x hx => hcs x (List.mem_cons_of_mem _ hx))

theorem Input.backspace_code_point (input : Input) (s c : List Byte)
    (hc : utf8_code_point c) (hcomp : input.composition = s ++ c) :
    input.backspace = { input with composition := s, changed_composition := true } := by
  obtain ⟨lead, conts, rfl, hlead, hconts⟩ := utf8_code_point_shape hc
  have hrev : input.composition.reverse = conts.reverse ++ lead :: s.reverse := by
    rw [hcomp]; simp
  have hpop := pop_continuation_append conts.reverse lead s.reverse
    (fun b hb => hconts b (List.mem_reverse.mp hb)) hlead
  simp only [Input.backspace, hrev, hpop, List.reverse_reverse]

theorem utf8_bytes_append (cps ds : List (List Byte)) :
    utf8_bytes (cps ++ ds) = utf8_bytes cps ++ utf8_bytes ds := by
  induction cps with
  | nil => rfl
  | cons c cps ih => simp [utf8_bytes, ih]

theorem Window.update_backspace (win : Window) :
    Window.update [SDL_Event.KEYDOWN SDLK_BACKSPACE] win
      = (true, { win with input :=
          { win.input.backspace with
              key_events := win.input.backspace.key_events ++ [(SDLK_BACKSPACE, true)] } }) := by
  simp [Window.update]

/-- C17: a backspace key-down handled by `Window::update` on a composition that
ends in the bytes of one code point leaves the composition without these bytes
(its continuation bytes and its lead byte) and sets the composition-changed
flag; so a well-formed, non-empty composition loses exactly its last code point
and stays well-formed; on the empty composition the string stays empty and the
flag is left as it was; in every case exactly one key-down event for backspace
is appended to the key events. -/
theorem backspace_removes_code_point (win : Window) :
    (∀ (s cp : List Byte), utf8_code_point cp → win.input.composition = s ++ cp →
        Window.update [SDL_Event.KEYDOWN SDLK_BACKSPACE] win
          = (true, { win with input :=
              { composition := s, changed_composition := true,
                key_events := win.input.key_events ++ [(SDLK_BACKSPACE, true)] } })) ∧
    (well_formed_utf8 win.input.composition → win.input.composition ≠ [] →
        ∃ (cps : List (List Byte)) (cp : List Byte),
          (∀ c ∈ cps, utf8_code_point c) ∧ utf8_code_point cp ∧
          win.input.composition = utf8_bytes (cps ++ [cp]) ∧
          well_formed_utf8 (utf8_bytes cps) ∧
          Window.update [SDL_Event.KEYDOWN SDLK_BACKSPACE] win
            = (true, { win with input :=
                { composition := utf8_bytes cps, changed_composition := true,
                  key_events := win.input.key_events ++ [(SDLK_BACKSPACE, true)] } })) ∧
    (win.input.composition = [] →
        Window.update [SDL_Event.KEYDOWN SDLK_BACKSPACE] win
          = (true, { win with input :=
              { composition := [], changed_composition := win.input.changed_composition,
                key_events := win.input.key_events ++ [(SDLK_BACKSPACE, true)] } })) ∧
    (Window.update [SDL_Event.KEYDOWN SDLK_BACKSPACE] win).2.input.key_events
      = win.input.key_events ++ [(SDLK_BACKSPACE, true)] := by
  have hcp : ∀ (s cp : List Byte), utf8_code_point cp → win.input.composition = s ++ cp →
      Window.update [SDL_Event.KEYDOWN SDLK_BACKSPACE] win
        = (true, { win with input :=
            { composition := s, changed_composition := true,
              key_events := win.input.key_events ++ [(SDLK_BACKSPACE, true)] } }) := by
    intro s cp hc hcomp
    rw [Window.update_backspace, Input.backspace_code_point win.input s cp hc hcomp]
  have hkeys : ∀ input : Input, input.backspace.key_events = input.key_events := by
    intro input
    unfold Input.backspace
    split <;> rfl
  refine ⟨hcp, ?_, ?_, ?_⟩
  · rintro ⟨cps, hcps, hbytes⟩ hne
    have hnil : cps ≠ [] := by
      rintro rfl
      exact hne hbytes
    have hsplit := List.dropLast_append_getLast hnil
    refine ⟨cps.dropLast, cps.getLast hnil,
      fun c hc => hcps c (List.mem_of_mem_dropLast hc),
      hcps _ (List.getLast_mem hnil), by rw [hsplit, hbytes],
      ⟨cps.dropLast, fun c hc => hcps c (List.mem_of_mem_dropLast hc), rfl⟩, ?_⟩
    apply hcp _ (cps.getLast hnil) (hcps _ (List.getLast_mem hnil))
    rw [hbytes]
    conv_lhs => rw [← hsplit]
    rw [utf8_bytes_append]
    simp [utf8_bytes]
  · intro hempty
    rw [Window.update_backspace]
    simp [Input.backspace, hempty, pop_continuation]
  · rw [Window.update_backspace]
    simp [hkeys]

/-- Witness of C17: the composition `a`, `é` (61, C3 A9) loses the two bytes of
its last code point. -/
theorem backspace_removes_code_point_witness :
    Window.update [SDL_Event.KEYDOWN SDLK_BACKSPACE]
        { World.initial.window with
            input := { composition := [0x61] ++ [0xC3, 0xA9], changed_composition := false,
                       key_events := [] } }
      = (true, { World.initial.window with
            input := { composition := [0x61], changed_composition := true,
                       key_events := [(SDLK_BACKSPACE, true)] } }) :=
  (backspace_removes_code_point
    { World.initial.window with
        input := { composition := [0x61] ++ [0xC3, 0xA9], changed_composition := false,
                   key_events := [] } }).1 [0x61] [0xC3, 0xA9] (by decide) rfl

/-! ## The calls of a decoder do not depend on the world it starts from -/

theorem same_calls_step {w w' v v' : World} {c : Call}
    (h : same_calls (w.call c) w' (v.call c) v') : same_calls w w' v v' := by
  obtain ⟨cs, h1, h2, h3⟩ := h
  exact ⟨c :: cs, by simp [h1, World.call], by simp [h2, World.call], by simp [h3, World.call]⟩

theorem draw_loop_same_calls (data : List Byte) :
    ∀ (n off : Nat) (w v : World) (c : Nat) (w' : World),
      draw_loop data n off w = .ok (c, w') →
      ∃ v', draw_loop data n off v = .ok (c, v') ∧ same_calls w w' v v' := by
  intro n
  induction n with
  | zero =>
    intro off w v c w' h
    simp only [draw_loop, Except.ok.injEq, Prod.mk.injEq] at h
    obtain ⟨rfl, rfl⟩ := h
    exact ⟨v, rfl, [], by simp, by simp, rfl⟩
  | succ n ih =>
    intro off w v c w' h
    simp only [draw_loop, read_float] at h
    obtain ⟨id, hid, h⟩ := bind_eq_ok h
    obtain ⟨x, hx, h⟩ := bind_eq_ok h
    obtain ⟨y, hy, h⟩ := bind_eq_ok h
    obtain ⟨scale, hs, h⟩ := bind_eq_ok h
    split at h
    · rename_i hflag
      obtain ⟨r, hr, h⟩ := bind_eq_ok h
      obtain ⟨g, hg, h⟩ := bind_eq_ok h
      obtain ⟨b, hb, h⟩ := bind_eq_ok h
      obtain ⟨len, hlen, h⟩ := bind_eq_ok h
      obtain ⟨v', hv', hsame⟩ := ih _ _ (v.call (.draw_text (id &&& 0x7FFFFFFF) x y scale r g b
        ((data.drop (off + 23)).take len) len)) _ _ h
      refine ⟨v', ?_, same_calls_step hsame⟩
      simp only [draw_loop, read_float, hid, hx, hy, hs, hr, hg, hb, hlen, bind, Except.bind,
        if_pos hflag, hv']
    · rename_i hflag
      obtain ⟨v', hv', hsame⟩ := ih _ _ (v.call (.draw_sprite id x y scale)) _ _ h
      refine ⟨v', ?_, same_calls_step hsame⟩
      simp only [draw_loop, read_float, hid, hx, hy, hs, bind, Except.bind, if_neg hflag,
        hv']

theorem draw_same_calls {w w' : World} {data : List Byte} (v : World)
    (h : draw w data = .ok w') : ∃ v', draw v data = .ok v' ∧ same_calls w w' v v' := by
  simp only [draw] at h
  obtain ⟨n, hn, h⟩ := bind_eq_ok h
  obtain ⟨⟨c, w1⟩, hloop, h⟩ := bind_eq_ok h
  obtain ⟨v1, hv1, hsame⟩ := draw_loop_same_calls data n 4 _ (v.call (.clear 0 0 0)) c w1 hloop
  have hsame' := same_calls_step hsame
  cases h
  refine ⟨v1.call .present, ?_, ?_⟩
  · simp only [draw, hn, hv1, bind, Except.bind, pure, Except.pure]
  · obtain ⟨cs, h1, h2, h3⟩ := hsame'
    exact ⟨cs ++ [Call.present], by simp [World.call, h1], by simp [World.call, h2],
      by simp [World.call, h3]⟩

theorem handle_audio_loop_same_calls (data : List Byte) :
    ∀ (n off : Nat) (w v : World) (w' : World),
      handle_audio_loop data n off w = .ok w' →
      ∃ v', handle_audio_loop data n off v = .ok v' ∧ same_calls w w' v v' := by
  intro n
  induction n with
  | zero =>
    intro off w v w' h
    cases h
    exact ⟨v, rfl, [], by simp, by simp, rfl⟩
  | succ n ih =>
    intro off w v w' h
    simp only [handle_audio_loop] at h
    obtain ⟨id, hid, h⟩ := bind_eq_ok h
    obtain ⟨ch, hch, h⟩ := bind_eq_ok h
    obtain ⟨vol, hvol, h⟩ := bind_eq_ok h
    obtain ⟨ty, hty, h⟩ := bind_eq_ok h
    obtain ⟨v', hv', hsame⟩ := ih _ _ (v.call (.perform_command id ch vol ty)) _ h
    refine ⟨v', ?_, same_calls_step hsame⟩
    simp only [handle_audio_loop, hid, hch, hvol, hty, bind, Except.bind, hv']

theorem handle_audio_same_calls {w w' : World} {data : List Byte} (v : World)
    (h : handle_audio w data = .ok w') :
    ∃ v', handle_audio v data = .ok v' ∧ same_calls w w' v v' := by
  simp only [handle_audio] at h
  obtain ⟨n, hn, h⟩ := bind_eq_ok h
  obtain ⟨v', hv', hsame⟩ := handle_audio_loop_same_calls data n 4 w v w' h
  exact ⟨v', by simp only [handle_audio, hn, bind, Except.bind, hv'], hsame⟩

theorem handle_commands_loop_same_calls (data : List Byte) :
    ∀ (n i : Nat) (w v : World) (w' : World),
      handle_commands_loop data n i w = .ok w' →
      ∃ v', handle_commands_loop data n i v = .ok v' ∧ same_calls w w' v v' := by
  intro n
  induction n with
  | zero =>
    intro i w v w' h
    cases h
    exact ⟨v, rfl, [], by simp, by simp, rfl⟩
  | succ n ih =>
    intro i w v w' h
    simp only [handle_commands_loop] at h
    obtain ⟨ty, hty, h⟩ := bind_eq_ok h
    split at h
    · rename_i h0
      obtain ⟨v', hv', cs, h1, h2, h3⟩ := ih _ _
        { v.call .start_text_input with window := v.window.start_text_input } _ h
      refine ⟨v', ?_, Call.start_text_input :: cs, ?_, ?_, ?_⟩
      · simp only [handle_commands_loop, hty, bind, Except.bind, if_pos h0, hv']
      · simpa [World.call] using h1
      · simpa [World.call] using h2
      · simpa [World.call] using h3
    · rename_i h0
      split at h
      · rename_i h1'
        obtain ⟨v', hv', cs, h1, h2, h3⟩ := ih _ _
          { v.call .stop_text_input with window := v.window.stop_text_input } _ h
        refine ⟨v', ?_, Call.stop_text_input :: cs, ?_, ?_, ?_⟩
        · simp only [handle_commands_loop, hty, bind, Except.bind, if_neg h0, if_pos h1', hv']
        · simpa [World.call] using h1
        · simpa [World.call] using h2
        · simpa [World.call] using h3
      · rename_i h1'
        obtain ⟨v', hv', hsame⟩ := ih _ _ v _ h
        refine ⟨v', ?_, hsame⟩
        simp only [handle_commands_loop, hty, bind, Except.bind, if_neg h0, if_neg h1', hv']

theorem handle_commands_same_calls {w w' : World} {data : List Byte} (v : World)
    (h : handle_commands w data = .ok w') :
    ∃ v', handle_commands v data = .ok v' ∧ same_calls w w' v v' := by
  simp only [handle_commands] at h
  obtain ⟨n, hn, h⟩ := bind_eq_ok h
  obtain ⟨v', hv', hsame⟩ := handle_commands_loop_same_calls data n 0 w v w' h
  exact ⟨v', by simp only [handle_commands, hn, bind, Except.bind, hv'], hsame⟩

theorem update_content_same_calls {w w' : World} {data : List Byte} (v : World)
    (h : update_content w data = .ok w') :
    ∃ v', update_content v data = .ok v' ∧ same_calls w w' v v' := by
  simp only [update_content] at h
  obtain ⟨id, hid, h⟩ := bind_eq_ok h
  obtain ⟨len, hlen, h⟩ := bind_eq_ok h
  obtain ⟨ty, hty, h⟩ := bind_eq_ok h
  split at h
  · rename_i h0
    cases h
    exact ⟨_, by simp only [update_content, hid, hlen, hty, bind, Except.bind, h0, if_true]; rfl,
      [_], rfl, rfl, rfl⟩
  · rename_i h0
    split at h
    · rename_i h1
      cases h
      exact ⟨_, by
          simp only [update_content, hid, hlen, hty, bind, Except.bind, h0, h1, if_true,
            if_false]; rfl,
        [_], rfl, rfl, rfl⟩
    · rename_i h1
      split at h
      · rename_i h2
        cases h
        exact ⟨_, by
            simp only [update_content, hid, hlen, hty, bind, Except.bind, h0, h1, h2, if_true,
              if_false]; rfl,
          [_], rfl, rfl, rfl⟩
      · rename_i h2
        cases h
        exact ⟨v, by
            simp only [update_content, hid, hlen, hty, bind, Except.bind, h0, h1, h2,
              if_false]; rfl,
          [], by simp, by simp, rfl⟩

theorem Decoder.run_same_calls (d : Decoder) {w w' : World} {data : List Byte} (v : World)
    (h : d.run w data = .ok w') : ∃ v', d.run v data = .ok v' ∧ same_calls w w' v v' := by
  cases d
  · exact draw_same_calls v h
  · exact handle_commands_same_calls v h
  · exact update_content_same_calls v h
  · exact handle_audio_same_calls v h

/-- A received message appends exactly the calls its decoder makes on its own and
releases exactly one packet. -/
theorem receive_own_calls {w w' : World} {e : ENetEvent} (h : receive w e = .ok w') :
    w'.calls = w.calls ++ own_calls e ∧ w'.released = w.released + 1 := by
  unfold receive at h
  unfold own_calls
  cases hr : route e.channelID with
  | none =>
    simp only [hr, bind, Except.bind, pure, Except.pure] at h
    cases h
    simp
  | some d =>
    simp only [hr] at h
    obtain ⟨w1, h1, h⟩ := bind_eq_ok h
    cases h
    obtain ⟨v', hv', cs, hc1, hc2, hc3⟩ := d.run_same_calls World.initial h1
    simp only [hv']
    have hcs : v'.calls = cs := by simpa [World.initial] using hc2
    simp [hc1, hcs, hc3]

theorem service_loop_in_order (evs : List ENetEvent)
    (hrecv : ∀ e ∈ evs, e.type = .RECEIVE) (hdec : ∀ e ∈ evs, e.decodes) :
    ∀ w : World, ∃ w', service_loop evs w = .ok (true, w') ∧
      w'.calls = w.calls ++ evs.flatMap own_calls ∧
      w'.released = w.released + evs.length := by
  induction evs with
  | nil => intro w; exact ⟨w, rfl, by simp, rfl⟩
  | cons e evs ih =>
    intro w
    have ht := hrecv e (List.mem_cons_self _ _)
    obtain ⟨w1, hw1⟩ := hdec e (List.mem_cons_self _ _) w
    obtain ⟨hc1, hr1⟩ := receive_own_calls hw1
    obtain ⟨w', hw', hc, hr⟩ := ih (fun x hx => hrecv x (List.mem_cons_of_mem _ hx))
      (fun x hx => hdec x (List.mem_cons_of_mem _ hx)) w1
    refine ⟨w', ?_, ?_, ?_⟩
    · simp only [service_loop, ht, hw1, bind, Except.bind, hw']
    · rw [hc, hc1, List.flatMap_cons, List.append_assoc]
    · rw [hr, hr1, List.length_cons]
      omega

/-- C12: when the queue drained by one call of `Client::update` holds only
receive-type events whose packets decode, `update` returns true, the calls it
has added are the concatenation, in delivery order, of the calls the decoder of
each message makes on its own, and each packet has been released once: no
message is skipped, reordered, merged with another or decoded twice. -/
theorem update_in_order (create_input_packet : Input → Option (List Byte) × Input)
    (w : World) (evs : List ENetEvent)
    (hrecv : ∀ e ∈ evs, e.type = .RECEIVE) (hdec : ∀ e ∈ evs, e.decodes) :
    ∃ w', update create_input_packet evs w = .ok (true, w') ∧
      w'.calls = w.calls ++ evs.flatMap own_calls ∧
      w'.released = w.released + evs.length := by
  simp only [update]
  cases hp : (create_input_packet w.window.input).1 with
  | none =>
    simpa using service_loop_in_order evs hrecv hdec
      { w with window := { w.window with input := (create_input_packet w.window.input).2 } }
  | some p =>
    simpa using service_loop_in_order evs hrecv hdec
      { w with window := { w.window with input := (create_input_packet w.window.input).2 },
               sent := w.sent ++ [⟨w.peer, INPUT_CHANNEL, p⟩] }

theorem content_event_decodes : content_event.decodes := fun _ => ⟨_, rfl⟩

/-- Witness of C12: a content message, then a scene message. -/
theorem update_in_order_witness :
    ∃ w', update no_input_packet [content_event, scene_event] World.initial = .ok (true, w') ∧
      w'.calls = [Call.load_image 7 [0xAA, 0xBB, 0xCC] 3, Call.clear 0 0 0,
        Call.draw_sprite 5 0 0x3F800000 0, Call.present] ∧
      w'.released = 2 :=
  update_in_order no_input_packet World.initial [content_event, scene_event] (by decide)
    (by
      intro e he
      rcases List.mem_cons.mp he with rfl | he
      · exact content_event_decodes
      · rw [List.mem_singleton] at he
        subst he
        exact scene_event_decodes)

end Anomaly
